import Mathlib

/-!
Verification development for the uyuni-ldap-sync repository.

The Go sources embedded here are `ldapsync.go` (the reconciliation engine:
`LDAPSync.Start`, `verifyIgnoredUsers`, `refreshExistingUyuniUsers`,
`refreshStagedLDAPUsers`, `refreshAllLDAPUsers`, `refreshUyuniUsersStatus`,
`SyncUsers`, the push helpers) and `ldapcalls.go` (the LDAP transport, which is
out of the decision core and is abstracted as a search oracle).

External collaborators (the LDAP directory and the Uyuni XML-RPC account store)
are modelled as oracles inside `Env`.  Every remote account-store call the
engine issues is recorded in a `Call` trace, so that temporal claims
("zero write calls", "exactly one creation call") become statements about the
trace of `runSync`.
-/

namespace UyuniLdapSync

/-- Directory entry as returned by a search: a DN plus multi-valued
attributes, mirroring `ldap.Entry` with `GetAttributeValue` /
`GetAttributeValues`. -/
structure Entry where
  dn : String
  attrs : List (String × List String)
deriving DecidableEq, Repr

/-- Mirrors `ldap.Entry.GetAttributeValues`: all values of an attribute,
or `[]` when the attribute is absent. -/
def Entry.getAttributeValues (e : Entry) (a : String) : List String :=
  match e.attrs.find? (fun p => p.1 == a) with
  | some p => p.2
  | none => []

/-- Mirrors `ldap.Entry.GetAttributeValue`: the first value of an attribute,
or `""` when absent. -/
def Entry.getAttributeValue (e : Entry) (a : String) : String :=
  match e.getAttributeValues a with
  | [] => ""
  | v :: _ => v

/-- Modelled from the spec: the `UyuniUser` record (defined in a repository
file that is not under `src/`).  Field names follow the Go code's uses:
`Uid`, `Name` (given name), `Secondname` (family name), `Email`, `Dn`,
`roles` (per the spec a set of role names with duplicates collapsed),
the classification flags `new` / `outdated`, the diagnostic flags
`accountchanged` / `roleschanged`, and `Err` (whether the last remote call
for this user failed). -/
structure UyuniUser where
  Uid : String := ""
  Name : String := ""
  Secondname : String := ""
  Email : String := ""
  Dn : String := ""
  roles : List String := []
  new : Bool := false
  outdated : Bool := false
  accountchanged : Bool := false
  roleschanged : Bool := false
  Err : Bool := false
deriving DecidableEq, Repr

/-- Modelled from the spec: `NewUyuniUser()` constructs a fresh user with all
fields empty (Go zero values). -/
def NewUyuniUser : UyuniUser := {}

/-- Modelled from the spec: adding one role to a role set; duplicates are
collapsed ("roles contains no duplicate entries"). -/
def addRole (rs : List String) (r : String) : List String :=
  if r ∈ rs then rs else rs ++ [r]

/-- Modelled from the spec: `AddRoles` unions the given roles into the
user's role set. -/
def UyuniUser.AddRoles (u : UyuniUser) (rs : List String) : UyuniUser :=
  { u with roles := rs.foldl addRole u.roles }

/-- Modelled from the spec: `FlushRoles` empties the role set. -/
def UyuniUser.FlushRoles (u : UyuniUser) : UyuniUser :=
  { u with roles := [] }

/-- Modelled from the spec: `GetRoles` returns the role set. -/
def UyuniUser.GetRoles (u : UyuniUser) : List String :=
  u.roles

/-- Modelled from the spec: `IsNew` reads the `isNew` classification flag. -/
def UyuniUser.IsNew (u : UyuniUser) : Bool := u.new

/-- Modelled from the spec: `IsOutdated` reads the `isOutdated` flag. -/
def UyuniUser.IsOutdated (u : UyuniUser) : Bool := u.outdated

/-- Modelled from the spec: `IsValid` holds when the last remote call for the
user did not produce an error. -/
def UyuniUser.IsValid (u : UyuniUser) : Bool := !u.Err

/-- Modelled from the spec: `Clone` returns a copy of the user (value copy of
the record). -/
def UyuniUser.Clone (u : UyuniUser) : UyuniUser := u

/-- Modelled from the spec: `CompareRoles` is an order-independent set
comparison of the two users' role sets (spec 4.7). -/
def CompareRoles (a b : UyuniUser) : Bool :=
  a.roles.all (fun r => b.roles.contains r) && b.roles.all (fun r => a.roles.contains r)

/-- Account-store remote calls issued by the engine (the `sync.uc.Call`
method names used in `ldapsync.go`). -/
inductive Call where
  | listUsers
  | getDetails (uid : String)
  | listRoles (uid : String)
  | create (uid name secondname email : String)
  | setDetails (uid : String)
  | usePam (uid : String)
  | delete (uid : String)
  | addRoleCall (uid role : String)
  | removeRoleCall (uid role : String)
deriving DecidableEq, Repr

/-- Write calls are the ones that mutate the destination account store
(`user.create`, `user.setDetails`, `user.usePamAuthentication`,
`user.delete`, `user.addRole`, `user.removeRole`). -/
def isWrite : Call → Bool
  | .create _ _ _ _ => true
  | .setDetails _ => true
  | .usePam _ => true
  | .delete _ => true
  | .addRoleCall _ _ => true
  | .removeRoleCall _ _ => true
  | _ => false

/-- The UID a call targets (`user.listUsers` has no target). -/
def callTarget : Call → Option String
  | .listUsers => none
  | .getDetails uid => some uid
  | .listRoles uid => some uid
  | .create uid _ _ _ => some uid
  | .setDetails uid => some uid
  | .usePam uid => some uid
  | .delete uid => some uid
  | .addRoleCall uid _ => some uid
  | .removeRoleCall uid _ => some uid

/-- Write calls of a trace that target a given UID. -/
def writesTargeting (t : List Call) (uid : String) : List Call :=
  t.filter (fun c => isWrite c && (callTarget c == some uid))

/-- Recognizer for a `user.create` call for a given UID. -/
def isCreateFor (uid : String) : Call → Bool
  | .create u _ _ _ => u == uid
  | _ => false

/-- Recognizer for a `user.delete` call for a given UID. -/
def isDeleteFor (uid : String) : Call → Bool
  | .delete u => u == uid
  | _ => false

/-- Number of `user.create` calls for a given UID in a trace. -/
def countCreates (t : List Call) (uid : String) : Nat :=
  t.countP (isCreateFor uid)

/-- Number of `user.delete` calls for a given UID in a trace. -/
def countDeletes (t : List Call) (uid : String) : Nat :=
  t.countP (isDeleteFor uid)

/-- Destination role store state: current role list per UID. -/
def DstRoles : Type := String → List String

/-- Point update of the destination role state. -/
def updateDst (dst : DstRoles) (uid : String) (v : List String) : DstRoles :=
  fun x => if x == uid then v else dst x

/-- The run environment: the parsed configuration (`ConfigReader`) plus
oracles for the two external collaborators.  `search base filter` models the
LDAP subtree searches of `LDAPCaller.Search`; the `listUsers` / `getDetails` /
`listRoles` oracles model the account store's read calls (`none` = remote
error); the `...Ok` oracles model success/failure of the individual write
calls. -/
structure Env where
  frozen : List String
  groups : List (String × List String)
  rolesCfg : List (String × List String)
  attrmap : List (String × List (String × String))
  allusers : String
  search : String → String → List Entry
  listUsers : Option (List String)
  getDetails : String → Option (String × String × String)
  listRoles : String → Option (List String)
  createOk : String → Bool
  roleListOk : String → Bool
  removeOk : String → String → Bool
  addOk : String → String → Bool
  setDetailsOk : String → Bool

/-- Association-list lookup, mirroring a Go map index expression. -/
def lookupAList {α : Type} (m : List (String × α)) (k : String) : Option α :=
  (m.find? (fun p => p.1 == k)).map (fun p => p.2)

/-- Core of `getAttributeNameFor` (ldapsync.go): look up the configured
`allusers` DN in the attribute map; if present and it carries an override for
`attr`, return the override, else return `attr` unchanged. -/
def getAttributeNameForIn (attrmap : List (String × List (String × String)))
    (allusers : String) (attr : String) : String :=
  match lookupAList attrmap allusers with
  | some fieldmap =>
    match lookupAList fieldmap attr with
    | some nAttr => nAttr
    | none => attr
  | none => attr

/-- `getAttributeNameFor` as called by the engine: the map key is always
`sync.cr.Config().Directory.Allusers`. -/
def getAttributeNameFor (env : Env) (attr : String) : String :=
  getAttributeNameForIn env.attrmap env.allusers attr

/-- Modelled from the spec: the Attribute Mapper contract of spec 4.1,
`resolve(baseDN, canonicalName)`, which looks up the *base DN being queried*
in the AttributeMap.  Kept separate from `getAttributeNameForIn` (the code)
so that the two can be compared. -/
def specResolve (attrmap : List (String × List (String × String)))
    (baseDN : String) (canonicalName : String) : String :=
  match lookupAList attrmap baseDN with
  | some fieldmap =>
    match lookupAList fieldmap canonicalName with
    | some nAttr => nAttr
    | none => canonicalName
  | none => canonicalName

/-- `getAttributes` (ldapsync.go): first non-empty value among the given
attribute aliases, else `""`. -/
def getAttributes (entry : Entry) : List String → String
  | [] => ""
  | a :: rest =>
    let obj := entry.getAttributeValue a
    if obj != "" then obj else getAttributes entry rest

/-- Character-level splitter for Go's `strings.Split(s, " ")` with the
single-space separator the code uses: every occurrence of the separator
starts a new (possibly empty) token, and the empty string yields one empty
token. -/
def splitSpaceChars : List Char → List (List Char)
  | [] => [[]]
  | c :: rest =>
    let r := splitSpaceChars rest
    if c = ' ' then [] :: r
    else
      match r with
      | [] => [[c]]
      | g :: gs => (c :: g) :: gs

/-- Go's `strings.Split(s, " ")` as used by `newUserFromDN`. -/
def goSplitSpace (s : String) : List String :=
  (splitSpaceChars s.data).map String.mk

/-- `newUserFromDN` (ldapsync.go): whole-subtree search rooted at `dn` with an
any-object filter.  With exactly one entry, `uid` / `mail` are resolved via
the attribute mapper, and the name splits `cn` on a space with a fallback;
otherwise an error is logged and the untouched fresh user is returned. -/
def newUserFromDN (env : Env) (dn : String) : UyuniUser :=
  let user := NewUyuniUser
  match env.search dn "(objectClass=*)" with
  | [entry] =>
    let user := { user with
      Dn := entry.dn,
      Uid := entry.getAttributeValue (getAttributeNameFor env "uid"),
      Email := entry.getAttributeValue (getAttributeNameFor env "mail") }
    match goSplitSpace (entry.getAttributeValue "cn") with
    | [a, b] => { user with Name := a, Secondname := b }
    | _ =>
      { user with
        Name := getAttributes entry
          [getAttributeNameFor env "name", getAttributeNameFor env "givenName"],
        Secondname := entry.getAttributeValue (getAttributeNameFor env "sn") }
  | _ => user

/-- UID membership test underlying `in` (ldapsync.go): some listed user has
this UID. -/
def uidIn (x : String) (users : List UyuniUser) : Bool :=
  users.any (fun u => u.Uid == x)

/-- `in` (ldapsync.go): looks for a user with the same UID. -/
def inUsers (user : UyuniUser) (users : List UyuniUser) : Bool :=
  uidIn user.Uid users

/-- The UID projection of a user list. -/
def uidsOf (users : List UyuniUser) : List String :=
  users.map (fun u => u.Uid)

/-- `sameAsIn` (ldapsync.go): find the user with the same UID and compare all
metadata in sequence (email, given name, family name, then the role sets via
`CompareRoles`); each failed comparison flags `accountchanged`, a failed
overall comparison flags `roleschanged`.  `none` models the
"user not found" error return. -/
def sameAsIn (user : UyuniUser) (users : List UyuniUser) : Option (Bool × UyuniUser) :=
  match users.find? (fun u => u.Uid == user.Uid) with
  | none => none
  | some u =>
    -- `same1` .. `same4` are the values of the Go variable `same` after each
    -- comparison block (`same = ...` only runs while `same` still holds, so
    -- each value conjoins the next comparison onto the previous value).
    -- The else-branch of block k+1 — reached exactly when `same` was already
    -- false after block k — sets `accountchanged`, so `accountchanged` is set
    -- exactly when `same3` is false; a false final result sets
    -- `roleschanged`.  Setting a Bool field to `true` is recorded as an
    -- `or` with its previous value.
    let same1 := u.Email == user.Email
    let same2 := same1 && (u.Name == user.Name)
    let same3 := same2 && (u.Secondname == user.Secondname)
    let same4 := same3 && CompareRoles user u
    some (same4, { user with
      accountchanged := user.accountchanged || !same3,
      roleschanged := user.roleschanged || !same4 })

/-- `updateFromLDAPUser` (ldapsync.go): copy name, family name, email and the
role set from the LDAP user with the same UID. -/
def updateFromLDAPUser (ldapusers : List UyuniUser) (uyuniUser : UyuniUser) : UyuniUser :=
  ldapusers.foldl
    (fun uu l =>
      if l.Uid == uu.Uid then
        ({ uu with
            Name := l.Name, Secondname := l.Secondname,
            Email := l.Email }).FlushRoles.AddRoles l.GetRoles
      else uu)
    uyuniUser

/-- `GetDeletedUsers` (ldapsync.go): users of the full LDAP set that are not
in the staged LDAP set but are in the Uyuni set. -/
def GetDeletedUsers (allldapusers ldapusers uyuniusers : List UyuniUser) : List UyuniUser :=
  allldapusers.filter (fun u => !inUsers u ldapusers && inUsers u uyuniusers)

/-- `GetNewUsers` (ldapsync.go): Uyuni-side users flagged new, refreshed from
their LDAP counterpart. -/
def GetNewUsers (uyuniusers ldapusers : List UyuniUser) : List UyuniUser :=
  (uyuniusers.filter (fun u => u.IsNew)).map (updateFromLDAPUser ldapusers)

/-- `GetOutdatedUsers` (ldapsync.go): users flagged outdated and not new. -/
def GetOutdatedUsers (uyuniusers : List UyuniUser) : List UyuniUser :=
  uyuniusers.filter (fun u => !u.IsNew && u.IsOutdated)

/-- The per-user flag assignment of the `refreshUyuniUsersStatus` loop
(ldapsync.go): set the `new` flag from UID membership and, for a non-new
user whose `sameAsIn` comparison succeeded, assign the `outdated` flag. -/
def statusProcessUser (uy : List UyuniUser) (user : UyuniUser) : UyuniUser :=
  let user := { user with new := !inUsers user uy }
  if !user.IsNew then
    match sameAsIn user uy with
    | some (isSame, u') => { u' with outdated := !isSame }
    | none => user
  else user

/-- In-place overwrite of a matching Uyuni user with the staged user's data
fields, role set and `outdated` flag (the inner loop of
`refreshUyuniUsersStatus`). -/
def overwriteWith (user uU : UyuniUser) : UyuniUser :=
  if uU.Uid == user.Uid then
    { uU with
      outdated := user.outdated, Name := user.Name,
      Secondname := user.Secondname, Email := user.Email,
      roles := ((UyuniUser.FlushRoles uU).AddRoles user.GetRoles).roles }
  else uU

/-- One iteration of the `refreshUyuniUsersStatus` loop (ldapsync.go): process
the staged user's flags, queue a clone of a new user, and overwrite the
matching Uyuni user in place. -/
def refreshStatusStep (uy nw : List UyuniUser) (user : UyuniUser) :
    List UyuniUser × List UyuniUser × UyuniUser :=
  let user := statusProcessUser uy user
  (uy.map (overwriteWith user),
    (if user.IsNew then nw ++ [user.Clone] else nw),
    user)

/-- The `refreshUyuniUsersStatus` loop over the staged users, threading the
Uyuni list and the queued new users and collecting the processed staged
users. -/
def statusFold : List UyuniUser → List UyuniUser → List UyuniUser →
    List UyuniUser × List UyuniUser × List UyuniUser
  | [], uy, nw => (uy, nw, [])
  | user :: rest, uy, nw =>
    let (uy', nw', user') := refreshStatusStep uy nw user
    let (uyF, nwF, ldF) := statusFold rest uy' nw'
    (uyF, nwF, user' :: ldF)

/-- `refreshUyuniUsersStatus` (ldapsync.go).  Returns the processed staged
LDAP users (whose flags were assigned in place) and the Uyuni user list with
the queued new users appended. -/
def refreshUyuniUsersStatus (ldapusers uyuniusers : List UyuniUser) :
    List UyuniUser × List UyuniUser :=
  let r := statusFold ldapusers uyuniusers []
  (r.2.2, r.1 ++ r.2.1)

/-- The loop body of `refreshExistingUyuniUsers` (ldapsync.go) over the logins
returned by `user.listUsers`: frozen UIDs are skipped, details and roles are
fetched per login, and any remote failure is fatal (`none`, trace up to and
including the failed call). -/
def refreshLoginsGo (env : Env) : List String → Option (List UyuniUser) × List Call
  | [] => (some [], [])
  | login :: rest =>
    if env.frozen.contains login then refreshLoginsGo env rest
    else
      match env.getDetails login with
      | none => (none, [Call.getDetails login])
      | some (email, first, last) =>
        match env.listRoles login with
        | none => (none, [Call.getDetails login, Call.listRoles login])
        | some rs =>
          let user := ({ NewUyuniUser with
            Uid := login, Email := email,
            Name := first, Secondname := last } : UyuniUser).AddRoles rs
          let r := refreshLoginsGo env rest
          (r.1.map (fun us => user :: us),
            Call.getDetails login :: Call.listRoles login :: r.2)

/-- `refreshExistingUyuniUsers` (ldapsync.go): list all destination accounts
and build one user per non-frozen login; failures are fatal. -/
def refreshExistingUyuniUsers (env : Env) : Option (List UyuniUser) × List Call :=
  match env.listUsers with
  | none => (none, [Call.listUsers])
  | some logins =>
    let r := refreshLoginsGo env logins
    (r.1, Call.listUsers :: r.2)

/-- `verifyIgnoredUsers` (ldapsync.go): walk the frozen UIDs, fetching each
one's destination roles; stop successfully at the first UID carrying
`org_admin` (the Go `goto End`), treat lookup errors as misses.  Returns the
verdict and the trace of `user.listRoles` calls issued. -/
def verifyIgnoredUsers (env : Env) : List String → Bool × List Call
  | [] => (false, [])
  | uid :: rest =>
    match env.listRoles uid with
    | none =>
      let r := verifyIgnoredUsers env rest
      (r.1, Call.listRoles uid :: r.2)
    | some rs =>
      if rs.contains "org_admin" then (true, [Call.listRoles uid])
      else
        let r := verifyIgnoredUsers env rest
        (r.1, Call.listRoles uid :: r.2)

/-- The guard's miss condition for one frozen UID: the role lookup failed, or
it returned a role list without `org_admin`. -/
def guardMiss (env : Env) (uid : String) : Bool :=
  match env.listRoles uid with
  | none => true
  | some rs => !rs.contains "org_admin"

/-- The distinct member/occupant DNs collected by `refreshStagedLDAPUsers`
(ldapsync.go): for the groups table then the roles table, search every
configured DN with an any-object filter and union the `member` and
`roleOccupant` values, deduplicated. -/
def collectUdns (env : Env) : List String :=
  let step := fun (udns : List String) (roleset : List (String × List String)) =>
    roleset.foldl
      (fun udns p =>
        (env.search p.1 "(objectClass=*)").foldl
          (fun udns entry =>
            ((entry.getAttributeValues "member") ++
              (entry.getAttributeValues "roleOccupant")).foldl
              (fun udns udn => if udn ∈ udns then udns else udns ++ [udn])
              udns)
          udns)
      udns
  step (step [] env.groups) env.rolesCfg

/-- `mergeRolesByAttributes` (ldapsync.go): search `dn` with the role-source's
filter; whenever a member/occupant value equals the user's DN, union the
configured destination roles into the user's role set. -/
def mergeRolesByAttributes (env : Env) (dn : String) (user : UyuniUser)
    (filter : String) (attrName : String) (uyuniRoles : List String) : UyuniUser :=
  (env.search dn filter).foldl
    (fun u entry =>
      (entry.getAttributeValues attrName).foldl
        (fun u roleDn => if roleDn == u.Dn then u.AddRoles uyuniRoles else u)
        u)
    user

/-- `updateLDAPUserRoles` (ldapsync.go): evaluate both role sources — the
organizationalRole table (attribute `roleOccupant`) then the group table
(attribute `member`), in the `roleConfigs` order of `NewLDAPSync` — for every
configured DN. -/
def updateLDAPUserRoles (env : Env) (user : UyuniUser) : UyuniUser :=
  let user := env.rolesCfg.foldl
    (fun u p => mergeRolesByAttributes env p.1 u "(objectClass=organizationalRole)"
      "roleOccupant" p.2)
    user
  env.groups.foldl
    (fun u p => mergeRolesByAttributes env p.1 u
      "(|(objectClass=groupOfNames)(objectClass=group))" "member" p.2)
    user

/-- One role-source mapping entry, for stating order-independence of the
role union: the searched DN, the search filter, the member attribute, and
the destination roles granted. -/
structure MergeEntry where
  dn : String
  filter : String
  attrName : String
  uyuniRoles : List String
deriving DecidableEq, Repr

/-- Folding `mergeRolesByAttributes` over an explicit list of mapping
entries. -/
def applyMerges (env : Env) (user : UyuniUser) (l : List MergeEntry) : UyuniUser :=
  l.foldl (fun u e => mergeRolesByAttributes env e.dn u e.filter e.attrName e.uyuniRoles) user

/-- The mapping entries `updateLDAPUserRoles` evaluates, in its evaluation
order. -/
def flattenedRoleConfigs (env : Env) : List MergeEntry :=
  env.rolesCfg.map (fun p =>
    ⟨p.1, "(objectClass=organizationalRole)", "roleOccupant", p.2⟩) ++
  env.groups.map (fun p =>
    ⟨p.1, "(|(objectClass=groupOfNames)(objectClass=group))", "member", p.2⟩)

/-- `refreshStagedLDAPUsers` (ldapsync.go): build a user from every distinct
member/occupant DN, keep the ones with a non-empty UID that are not frozen,
and resolve their roles. -/
def refreshStagedLDAPUsers (env : Env) : List UyuniUser :=
  (collectUdns env).foldl
    (fun acc udn =>
      let user := newUserFromDN env udn
      if user.Uid != "" && !env.frozen.contains user.Uid then
        acc ++ [updateLDAPUserRoles env user]
      else acc)
    []

/-- `refreshAllLDAPUsers` (ldapsync.go): the broad organizational-person
subtree under the configured all-users base DN. -/
def refreshAllLDAPUsers (env : Env) : List UyuniUser :=
  (env.search env.allusers "(objectClass=organizationalPerson)").map
    (fun entry => newUserFromDN env entry.dn)

/-- Bool-level set equality of two role lists (order-independent
membership). -/
def sameRoleSet (a b : List String) : Bool :=
  a.all (fun r => b.contains r) && b.all (fun r => a.contains r)

/-- `pushUserRolesToUyuni` (ldapsync.go): list the user's current destination
roles, remove every one of them, then add every role of the directory-derived
set.  The destination role state honours the `removeOk` / `addOk` failure
oracles (a failed call is still issued and logged but leaves the state
unchanged); a failed `user.listRoles` aborts the push after that single
call. -/
def pushUserRolesToUyuni (env : Env) (dst : DstRoles) (user : UyuniUser) :
    DstRoles × List Call :=
  if env.roleListOk user.Uid then
    let cur := dst user.Uid
    let afterRemove := cur.foldl
      (fun s r => if env.removeOk user.Uid r then s.erase r else s) cur
    let final := user.GetRoles.foldl
      (fun s r => if env.addOk user.Uid r then addRole s r else s) afterRemove
    (updateDst dst user.Uid final,
      Call.listRoles user.Uid ::
        (cur.map (fun r => Call.removeRoleCall user.Uid r) ++
          user.GetRoles.map (fun r => Call.addRoleCall user.Uid r)))
  else (dst, [Call.listRoles user.Uid])

/-- `pushUserAccountDataToUyuni` (ldapsync.go): push the account fields, then
re-assert PAM authentication; a failed `user.setDetails` stops this user's
update early. -/
def pushUserAccountDataToUyuni (env : Env) (user : UyuniUser) : List Call :=
  Call.setDetails user.Uid ::
    (if env.setDetailsOk user.Uid then [Call.usePam user.Uid] else [])

/-- The create-phase body of `SyncUsers` (ldapsync.go): one `user.create`
call; on success (a freshly created account has an empty role list) the role
set is pushed, on failure the user is only collected as failed. -/
def createNewUser (env : Env) (dst : DstRoles) (user : UyuniUser) :
    DstRoles × List Call :=
  let t := [Call.create user.Uid user.Name user.Secondname user.Email]
  if env.createOk user.Uid then
    let r := pushUserRolesToUyuni env (updateDst dst user.Uid []) user
    (r.1, t ++ r.2)
  else (dst, t)

/-- The update-phase body of `SyncUsers` (ldapsync.go): push roles, then push
account data. -/
def updateExistingUser (env : Env) (dst : DstRoles) (user : UyuniUser) :
    DstRoles × List Call :=
  let r := pushUserRolesToUyuni env dst user
  (r.1, r.2 ++ pushUserAccountDataToUyuni env user)

/-- The delete-phase body of `SyncUsers` / `deleteUser` (ldapsync.go): one
`user.delete` call. -/
def deleteUser (dst : DstRoles) (user : UyuniUser) : DstRoles × List Call :=
  (updateDst dst user.Uid [], [Call.delete user.Uid])

/-- Run one push phase over its user list, threading the destination role
state and concatenating the traces. -/
def syncPhase (f : DstRoles → UyuniUser → DstRoles × List Call) :
    DstRoles → List UyuniUser → DstRoles × List Call
  | dst, [] => (dst, [])
  | dst, u :: rest =>
    let r1 := f dst u
    let r2 := syncPhase f r1.1 rest
    (r2.1, r1.2 ++ r2.2)

/-- `SyncUsers` (ldapsync.go): the three push passes in order — create the
new users, update the outdated users, delete the removed users. -/
def SyncUsers (env : Env) (ldapusers uyuniusers allldapusers : List UyuniUser)
    (dst : DstRoles) : DstRoles × List Call :=
  let newUsers := GetNewUsers uyuniusers ldapusers
  let r1 := syncPhase (createNewUser env) dst newUsers
  let existingUsers := GetOutdatedUsers uyuniusers
  let r2 := syncPhase (updateExistingUser env) r1.1 existingUsers
  let deletedUsers := GetDeletedUsers allldapusers ldapusers uyuniusers
  let r3 := syncPhase deleteUser r2.1 deletedUsers
  (r3.1, r1.2 ++ r2.2 ++ r3.2)

/-- A full run, as driven by `LDAPSync.Start` followed by the push step
(spec 4.8): the lockout guard first — `Log.Fatal` aborting the process when
it fails — then the destination listing (fatal on error), the staged and full
LDAP sets, the classification, and `SyncUsers`.  The result is the trace of
account-store calls issued. -/
def runSync (env : Env) : List Call :=
  let g := verifyIgnoredUsers env env.frozen
  if g.1 then
    match refreshExistingUyuniUsers env with
    | (some uyuniusers0, t1) =>
      let ldapusers0 := refreshStagedLDAPUsers env
      let allldapusers := refreshAllLDAPUsers env
      let st := refreshUyuniUsersStatus ldapusers0 uyuniusers0
      let dst0 : DstRoles := fun uid => (env.listRoles uid).getD []
      g.2 ++ t1 ++ (SyncUsers env st.1 st.2 allldapusers dst0).2
    | (none, t1) => g.2 ++ t1
  else g.2

/-- The UID and `new`-flag projection used to track the classification
loop's invariants. -/
def uidNewPair (u : UyuniUser) : String × Bool := (u.Uid, u.new)

/-- Whether one mapping entry grants a role to the directory object with the
given DN. -/
def grantsRole (env : Env) (userDn : String) (e : MergeEntry) (r : String) : Prop :=
  r ∈ e.uyuniRoles ∧ ∃ en ∈ env.search e.dn e.filter, userDn ∈ en.getAttributeValues e.attrName

/-- A directory entry carrying distinct values under the canonical `uid`
attribute and under an `employeeId` override. -/
def entryC : Entry :=
  ⟨"cn=carol,ou=Q,dc=x",
    [("uid", ["carol"]), ("employeeId", ["emp42"]), ("cn", ["Carol Jones"])]⟩

/-- An environment whose AttributeMap has a `uid` override keyed by the very
DN being queried, while the configured all-users DN has no entry. -/
def envC : Env where
  frozen := []
  groups := []
  rolesCfg := []
  attrmap := [("cn=carol,ou=Q,dc=x", [("uid", "employeeId")])]
  allusers := "ou=People,dc=x"
  search := fun base filter =>
    if base == "cn=carol,ou=Q,dc=x" && filter == "(objectClass=*)" then [entryC] else []
  listUsers := none
  getDetails := fun _ => none
  listRoles := fun _ => none
  createOk := fun _ => false
  roleListOk := fun _ => false
  removeOk := fun _ _ => false
  addOk := fun _ _ => false
  setDetailsOk := fun _ => false

/-- An environment whose directory returns no entry for any search. -/
def envZ : Env where
  frozen := []
  groups := []
  rolesCfg := []
  attrmap := []
  allusers := ""
  search := fun _ _ => []
  listUsers := none
  getDetails := fun _ => none
  listRoles := fun _ => none
  createOk := fun _ => false
  roleListOk := fun _ => false
  removeOk := fun _ _ => false
  addOk := fun _ _ => false
  setDetailsOk := fun _ => false

/-- A directory entry describing the staged user `alice`. -/
def aliceEntry : Entry :=
  ⟨"cn=alice,ou=U,dc=x", [("uid", ["alice"]), ("cn", ["Alice Liddell"]), ("mail", ["a@x"])]⟩

/-- A small but complete test environment: one frozen break-glass account
holding `org_admin`, one group staging `alice`, and a destination containing
only `eve`. -/
def envW : Env where
  frozen := ["administrator"]
  groups := [("cn=g,dc=x", ["org_admin"])]
  rolesCfg := []
  attrmap := []
  allusers := "ou=U,dc=x"
  search := fun base filter =>
    if base == "cn=g,dc=x" && filter == "(objectClass=*)" then
      [⟨"cn=g,dc=x", [("member", ["cn=alice,ou=U,dc=x"])]⟩]
    else if base == "cn=g,dc=x" &&
        filter == "(|(objectClass=groupOfNames)(objectClass=group))" then
      [⟨"cn=g,dc=x", [("member", ["cn=alice,ou=U,dc=x"])]⟩]
    else if base == "cn=alice,ou=U,dc=x" && filter == "(objectClass=*)" then
      [aliceEntry]
    else if base == "ou=U,dc=x" && filter == "(objectClass=organizationalPerson)" then
      [aliceEntry]
    else []
  listUsers := some ["eve"]
  getDetails := fun uid => if uid == "eve" then some ("e@x", "E", "V") else none
  listRoles := fun uid =>
    if uid == "administrator" then some ["org_admin"]
    else if uid == "eve" then some [] else none
  createOk := fun _ => true
  roleListOk := fun _ => true
  removeOk := fun _ _ => true
  addOk := fun _ _ => true
  setDetailsOk := fun _ => true

/-- The destination users `refreshExistingUyuniUsers` derives in `envW`. -/
def uy0W : List UyuniUser :=
  [{ Uid := "eve", Name := "E", Secondname := "V", Email := "e@x" }]

/-- The read trace `refreshExistingUyuniUsers` issues in `envW`. -/
def t1W : List Call :=
  [Call.listUsers, Call.getDetails "eve", Call.listRoles "eve"]

/-- Like `envW` but with every destination role lookup failing, so the
lockout guard cannot find a frozen administrator. -/
def envA : Env where
  frozen := ["administrator"]
  groups := [("cn=g,dc=x", ["org_admin"])]
  rolesCfg := []
  attrmap := []
  allusers := "ou=U,dc=x"
  search := envW.search
  listUsers := some ["eve"]
  getDetails := fun uid => if uid == "eve" then some ("e@x", "E", "V") else none
  listRoles := fun _ => none
  createOk := fun _ => true
  roleListOk := fun _ => true
  removeOk := fun _ _ => true
  addOk := fun _ _ => true
  setDetailsOk := fun _ => true

/-- A directory entry describing the full-set user `bob`. -/
def bobEntry : Entry :=
  ⟨"cn=bob,ou=U,dc=x", [("uid", ["bob"]), ("cn", ["Bob Kent"]), ("mail", ["b@x"])]⟩

/-- Environment for the deletion scenario: `bob` is in the full directory
subtree and on the destination, but no configured group stages him. -/
def envD : Env where
  frozen := ["administrator"]
  groups := [("cn=g,dc=x", ["org_admin"])]
  rolesCfg := []
  attrmap := []
  allusers := "ou=U,dc=x"
  search := fun base filter =>
    if base == "cn=g,dc=x" && filter == "(objectClass=*)" then
      [⟨"cn=g,dc=x", [("member", ["cn=alice,ou=U,dc=x"])]⟩]
    else if base == "cn=g,dc=x" &&
        filter == "(|(objectClass=groupOfNames)(objectClass=group))" then
      [⟨"cn=g,dc=x", [("member", ["cn=alice,ou=U,dc=x"])]⟩]
    else if base == "cn=alice,ou=U,dc=x" && filter == "(objectClass=*)" then
      [aliceEntry]
    else if base == "cn=bob,ou=U,dc=x" && filter == "(objectClass=*)" then
      [bobEntry]
    else if base == "ou=U,dc=x" && filter == "(objectClass=organizationalPerson)" then
      [aliceEntry, bobEntry]
    else []
  listUsers := some ["eve", "bob"]
  getDetails := fun uid =>
    if uid == "eve" then some ("e@x", "E", "V")
    else if uid == "bob" then some ("b@x", "Bob", "Kent") else none
  listRoles := fun uid =>
    if uid == "administrator" then some ["org_admin"]
    else if uid == "eve" then some []
    else if uid == "bob" then some [] else none
  createOk := fun _ => true
  roleListOk := fun _ => true
  removeOk := fun _ _ => true
  addOk := fun _ _ => true
  setDetailsOk := fun _ => true

/-- The destination users `refreshExistingUyuniUsers` derives in `envD`. -/
def uy0D : List UyuniUser :=
  [{ Uid := "eve", Name := "E", Secondname := "V", Email := "e@x" },
   { Uid := "bob", Name := "Bob", Secondname := "Kent", Email := "b@x" }]

/-- The read trace `refreshExistingUyuniUsers` issues in `envD`. -/
def t1D : List Call :=
  [Call.listUsers, Call.getDetails "eve", Call.listRoles "eve",
    Call.getDetails "bob", Call.listRoles "bob"]

/-- The full-set user `newUserFromDN` builds for `bob` in `envD`. -/
def bobUser : UyuniUser :=
  { Uid := "bob", Name := "Bob", Secondname := "Kent", Email := "b@x",
    Dn := "cn=bob,ou=U,dc=x" }

/-- A destination-origin user whose role set differs from its staged
counterpart `d4`. -/
def u4 : UyuniUser :=
  { Uid := "dana", Name := "D", Secondname := "N", Email := "d@x",
    roles := ["org_admin"] }

/-- A staged directory user equal to `u4` in every compared field except the
role set. -/
def d4 : UyuniUser :=
  { Uid := "dana", Name := "D", Secondname := "N", Email := "d@x",
    roles := ["channel_admin"] }

/-- Destination role state for the role-replacement scenario. -/
def dst4 : DstRoles := fun x => if x == "dana" then ["org_admin"] else []

/-- Environment whose write oracles all succeed, for the role-replacement
scenario. -/
def env4 : Env where
  frozen := []
  groups := []
  rolesCfg := []
  attrmap := []
  allusers := ""
  search := fun _ _ => []
  listUsers := none
  getDetails := fun _ => none
  listRoles := fun _ => none
  createOk := fun _ => true
  roleListOk := fun _ => true
  removeOk := fun _ _ => true
  addOk := fun _ _ => true
  setDetailsOk := fun _ => true

/-- A directory user identified only by its DN, for the role-union
scenario. -/
def userG : UyuniUser := { Dn := "cn=gina,ou=U,dc=x" }

/-- Environment where two groups and one organizational role grant
overlapping role sets to `userG`'s DN. -/
def envG : Env where
  frozen := []
  groups := [("cn=g1,dc=x", ["org_admin"]), ("cn=g2,dc=x", ["org_admin", "channel_admin"])]
  rolesCfg := [("cn=r1,dc=x", ["org_admin"])]
  attrmap := []
  allusers := "ou=U,dc=x"
  search := fun base filter =>
    if base == "cn=g1,dc=x" &&
        filter == "(|(objectClass=groupOfNames)(objectClass=group))" then
      [⟨"cn=g1,dc=x", [("member", ["cn=gina,ou=U,dc=x"])]⟩]
    else if base == "cn=g2,dc=x" &&
        filter == "(|(objectClass=groupOfNames)(objectClass=group))" then
      [⟨"cn=g2,dc=x", [("member", ["cn=gina,ou=U,dc=x"])]⟩]
    else if base == "cn=r1,dc=x" && filter == "(objectClass=organizationalRole)" then
      [⟨"cn=r1,dc=x", [("roleOccupant", ["cn=gina,ou=U,dc=x"])]⟩]
    else []
  listUsers := none
  getDetails := fun _ => none
  listRoles := fun _ => none
  createOk := fun _ => true
  roleListOk := fun _ => true
  removeOk := fun _ _ => true
  addOk := fun _ _ => true
  setDetailsOk := fun _ => true

/-! ### Generic list helpers -/

theorem foldl_preserve {α β : Type} (f : β → α → β) (P : β → Prop)
    (h : ∀ b a, P b → P (f b a)) : ∀ (l : List α) (b : β), P b → P (l.foldl f b)
  | [], _, hb => hb
  | a :: l, b, hb => foldl_preserve f P h l (f b a) (h b a hb)

/-! ### Role-set algebra -/

theorem mem_addRole {rs : List String} {x r : String} :
    r ∈ addRole rs x ↔ r ∈ rs ∨ r = x := by
  by_cases h : x ∈ rs
  · simp only [addRole, if_pos h]
    constructor
    · exact Or.inl
    · rintro (hr | rfl)
      · exact hr
      · exact h
  · simp [addRole, if_neg h]

theorem nodup_addRole {rs : List String} {x : String} (h : rs.Nodup) :
    (addRole rs x).Nodup := by
  by_cases hx : x ∈ rs
  · simpa [addRole, hx] using h
  · simp [addRole, hx, List.nodup_append, h]

theorem mem_foldl_addRole (rs : List String) :
    ∀ (init : List String) (r : String),
      r ∈ rs.foldl addRole init ↔ r ∈ init ∨ r ∈ rs := by
  induction rs with
  | nil => simp
  | cons x rs ih =>
    intro init r
    simp only [List.foldl_cons, ih, mem_addRole, List.mem_cons]
    tauto

theorem nodup_foldl_addRole (rs : List String) :
    ∀ init : List String, init.Nodup → (rs.foldl addRole init).Nodup := by
  induction rs with
  | nil => intro init h; simpa using h
  | cons x rs ih => intro init h; exact ih _ (nodup_addRole h)

theorem foldl_addRole_of_disjoint (rs : List String) :
    ∀ init : List String, rs.Nodup → (∀ r ∈ rs, r ∉ init) →
      rs.foldl addRole init = init ++ rs := by
  induction rs with
  | nil => simp
  | cons x rs ih =>
    intro init hnd hdis
    have hx : x ∉ init := hdis x (List.mem_cons_self x rs)
    have hnd' := List.nodup_cons.mp hnd
    simp only [List.foldl_cons, addRole, if_neg hx]
    rw [ih (init ++ [x]) hnd'.2]
    · simp
    · intro r hr
      simp only [List.mem_append, List.mem_singleton]
      rintro (hri | rfl)
      · exact hdis r (List.mem_cons_of_mem x hr) hri
      · exact hnd'.1 hr

theorem foldl_addRole_nil {rs : List String} (h : rs.Nodup) :
    rs.foldl addRole [] = rs := by
  simpa using foldl_addRole_of_disjoint rs [] h (by simp)

/-! ### Projections of the modelled user operations -/

theorem AddRoles_Uid (u : UyuniUser) (rs : List String) : (u.AddRoles rs).Uid = u.Uid := rfl

theorem AddRoles_Dn (u : UyuniUser) (rs : List String) : (u.AddRoles rs).Dn = u.Dn := rfl

theorem AddRoles_new (u : UyuniUser) (rs : List String) : (u.AddRoles rs).new = u.new := rfl

theorem AddRoles_roles (u : UyuniUser) (rs : List String) :
    (u.AddRoles rs).roles = rs.foldl addRole u.roles := rfl

/-! ### UID membership -/

theorem uidIn_iff {x : String} {users : List UyuniUser} :
    uidIn x users = true ↔ ∃ u ∈ users, u.Uid = x := by
  simp [uidIn, List.any_eq_true]

theorem uidIn_eq_uids (x : String) (l : List UyuniUser) :
    uidIn x l = (uidsOf l).any (fun s => s == x) := by
  induction l with
  | nil => rfl
  | cons u l ih => simp [uidIn, uidsOf, List.any_cons] at ih ⊢; rw [ih]

theorem uidIn_congr {x : String} {l l' : List UyuniUser}
    (h : uidsOf l = uidsOf l') : uidIn x l = uidIn x l' := by
  rw [uidIn_eq_uids, uidIn_eq_uids, h]

theorem uidIn_append (x : String) (l l' : List UyuniUser) :
    uidIn x (l ++ l') = (uidIn x l || uidIn x l') := by
  simp [uidIn]

/-! ### Characterization of `sameAsIn` -/

theorem sameAsIn_eq_some {user u : UyuniUser} {users : List UyuniUser}
    (hf : users.find? (fun v => v.Uid == user.Uid) = some u) :
    sameAsIn user users = some
      ((u.Email == user.Email) && (u.Name == user.Name) &&
          (u.Secondname == user.Secondname) && CompareRoles user u,
        { user with
          accountchanged := user.accountchanged ||
            !((u.Email == user.Email) && (u.Name == user.Name) &&
              (u.Secondname == user.Secondname)),
          roleschanged := user.roleschanged ||
            !((u.Email == user.Email) && (u.Name == user.Name) &&
              (u.Secondname == user.Secondname) && CompareRoles user u) }) := by
  simp [sameAsIn, hf, Bool.and_assoc]

theorem sameAsIn_isSome_of_uidIn {user : UyuniUser} {users : List UyuniUser}
    (h : uidIn user.Uid users = true) : (sameAsIn user users).isSome = true := by
  have hex : ∃ u, u ∈ users ∧ (u.Uid == user.Uid) = true := by
    obtain ⟨u, hu, hx⟩ := uidIn_iff.mp h
    exact ⟨u, hu, by simp [hx]⟩
  have : (users.find? (fun v => v.Uid == user.Uid)).isSome := by
    rw [List.find?_isSome]; exact hex
  cases hf : users.find? (fun v => v.Uid == user.Uid) with
  | none => rw [hf] at this; simp at this
  | some u => rw [sameAsIn_eq_some hf]; rfl

theorem sameAsIn_some_proj {user : UyuniUser} {users : List UyuniUser}
    {s : Bool} {u' : UyuniUser} (h : sameAsIn user users = some (s, u')) :
    u'.Uid = user.Uid ∧ u'.new = user.new ∧ u'.outdated = user.outdated ∧
      u'.roles = user.roles ∧ u'.Name = user.Name ∧
      u'.Secondname = user.Secondname ∧ u'.Email = user.Email := by
  cases hf : users.find? (fun v => v.Uid == user.Uid) with
  | none => simp [sameAsIn, hf] at h
  | some u =>
    rw [sameAsIn_eq_some hf] at h
    obtain ⟨-, h2⟩ := Prod.mk.injEq .. ▸ (Option.some.injEq .. ▸ h)
    rw [← h2]
    exact ⟨rfl, rfl, rfl, rfl, rfl, rfl, rfl⟩

/-! ### Characterization of the classification loop -/

theorem statusProcessUser_Uid (uy : List UyuniUser) (user : UyuniUser) :
    (statusProcessUser uy user).Uid = user.Uid := by
  simp only [statusProcessUser]
  split
  · cases hs : sameAsIn { user with new := !inUsers user uy } uy with
    | none => rfl
    | some p =>
      obtain ⟨s, u'⟩ := p
      exact (sameAsIn_some_proj hs).1
  · rfl

theorem statusProcessUser_new (uy : List UyuniUser) (user : UyuniUser) :
    (statusProcessUser uy user).new = !uidIn user.Uid uy := by
  simp only [statusProcessUser]
  split
  · cases hs : sameAsIn { user with new := !inUsers user uy } uy with
    | none => rfl
    | some p =>
      obtain ⟨s, u'⟩ := p
      exact (sameAsIn_some_proj hs).2.1
  · rfl

theorem statusProcessUser_of_uidIn {uy : List UyuniUser} {user : UyuniUser}
    (h : uidIn user.Uid uy = true) :
    ∃ s u', sameAsIn { user with new := false } uy = some (s, u') ∧
      (statusProcessUser uy user).outdated = !s := by
  have hnew : ({ user with new := !inUsers user uy } : UyuniUser)
      = { user with new := false } := by
    simp [inUsers, h]
  have hsome : (sameAsIn ({ user with new := false } : UyuniUser) uy).isSome = true :=
    sameAsIn_isSome_of_uidIn (by simpa using h)
  cases hs : sameAsIn ({ user with new := false } : UyuniUser) uy with
  | none => rw [hs] at hsome; simp at hsome
  | some p =>
    obtain ⟨s, u'⟩ := p
    refine ⟨s, u', rfl, ?_⟩
    unfold statusProcessUser
    rw [hnew]
    have hnotnew : (!({ user with new := false } : UyuniUser).IsNew) = true := by
      simp [UyuniUser.IsNew]
    rw [if_pos hnotnew, hs]

theorem overwriteWith_pair (user uU : UyuniUser) :
    uidNewPair (overwriteWith user uU) = uidNewPair uU := by
  unfold overwriteWith
  split <;> rfl

theorem map_overwriteWith_pairs (user : UyuniUser) (uy : List UyuniUser) :
    (uy.map (overwriteWith user)).map uidNewPair = uy.map uidNewPair := by
  rw [List.map_map]
  exact List.map_congr_left (fun u _ => overwriteWith_pair user u)

theorem statusFold_uy_pairs (staged : List UyuniUser) :
    ∀ uy nw : List UyuniUser,
      ((statusFold staged uy nw).1).map uidNewPair = uy.map uidNewPair := by
  induction staged with
  | nil => intro uy nw; rfl
  | cons user rest ih =>
    intro uy nw
    show ((statusFold rest (uy.map (overwriteWith (statusProcessUser uy user)))
        _).1).map uidNewPair = uy.map uidNewPair
    rw [ih, map_overwriteWith_pairs]

theorem statusFold_uy_uids (staged : List UyuniUser) (uy nw : List UyuniUser) :
    uidsOf (statusFold staged uy nw).1 = uidsOf uy := by
  have h := statusFold_uy_pairs staged uy nw
  have h1 := congrArg (List.map Prod.fst) h
  simpa [uidsOf, List.map_map, Function.comp, uidNewPair] using h1

theorem uidIn_statusFold_uy (x : String) (staged : List UyuniUser)
    (uy nw : List UyuniUser) :
    uidIn x (statusFold staged uy nw).1 = uidIn x uy :=
  uidIn_congr (statusFold_uy_uids staged uy nw)

theorem statusFold_nw_pairs (staged : List UyuniUser) :
    ∀ uy nw : List UyuniUser,
      ((statusFold staged uy nw).2.1).map uidNewPair
        = nw.map uidNewPair ++
          ((uidsOf staged).filter (fun x => !uidIn x uy)).map (fun x => (x, true)) := by
  induction staged with
  | nil => intro uy nw; simp [statusFold, uidsOf]
  | cons user rest ih =>
    intro uy nw
    have hpair : uidNewPair (statusProcessUser uy user) = (user.Uid, !uidIn user.Uid uy) := by
      unfold uidNewPair
      rw [statusProcessUser_Uid, statusProcessUser_new]
    show ((statusFold rest (uy.map (overwriteWith (statusProcessUser uy user)))
        (if (statusProcessUser uy user).IsNew then nw ++ [(statusProcessUser uy user).Clone]
          else nw)).2.1).map uidNewPair = _
    rw [ih]
    have huidIn : ∀ y : String,
        uidIn y (uy.map (overwriteWith (statusProcessUser uy user))) = uidIn y uy := by
      intro y
      apply uidIn_congr
      have h1 := congrArg (List.map Prod.fst) (map_overwriteWith_pairs (statusProcessUser uy user) uy)
      simpa [uidsOf, List.map_map, Function.comp, uidNewPair] using h1
    have hfilter :
        ((uidsOf rest).filter (fun x => !uidIn x (uy.map (overwriteWith (statusProcessUser uy user)))))
          = (uidsOf rest).filter (fun x => !uidIn x uy) := by
      apply List.filter_congr
      intro x _
      rw [huidIn x]
    rw [hfilter]
    cases hin : uidIn user.Uid uy with
    | true =>
      have : (statusProcessUser uy user).IsNew = false := by
        simp [UyuniUser.IsNew, statusProcessUser_new, hin]
      rw [if_neg (by simp [this])]
      simp only [uidsOf, List.map_cons, List.filter_cons]
      rw [if_neg (by simp [hin])]
    | false =>
      have hnew : (statusProcessUser uy user).IsNew = true := by
        simp [UyuniUser.IsNew, statusProcessUser_new, hin]
      rw [if_pos (by simp [hnew])]
      simp only [uidsOf, List.map_cons, List.filter_cons]
      rw [if_pos (by simp [hin])]
      simp only [List.map_append, List.map_cons, List.map_nil, UyuniUser.Clone, hpair]
      rw [List.append_assoc]
      congr 1
      simp [hin]

theorem statusFold_ld_pairs (staged : List UyuniUser) :
    ∀ uy nw : List UyuniUser,
      ((statusFold staged uy nw).2.2).map uidNewPair
        = staged.map (fun u => (u.Uid, !uidIn u.Uid uy)) := by
  induction staged with
  | nil => intro uy nw; rfl
  | cons user rest ih =>
    intro uy nw
    show uidNewPair (statusProcessUser uy user) ::
        ((statusFold rest (uy.map (overwriteWith (statusProcessUser uy user))) _).2.2).map uidNewPair
        = _
    rw [ih]
    have hpair : uidNewPair (statusProcessUser uy user) = (user.Uid, !uidIn user.Uid uy) := by
      unfold uidNewPair
      rw [statusProcessUser_Uid, statusProcessUser_new]
    have huidIn : ∀ u : UyuniUser,
        uidIn u.Uid (uy.map (overwriteWith (statusProcessUser uy user))) = uidIn u.Uid uy := by
      intro u
      apply uidIn_congr
      have h1 := congrArg (List.map Prod.fst) (map_overwriteWith_pairs (statusProcessUser uy user) uy)
      simpa [uidsOf, List.map_map, Function.comp, uidNewPair] using h1
    rw [hpair]
    congr 1
    exact List.map_congr_left (fun u _ => by rw [huidIn u])

theorem statusFold_ld_uids (staged : List UyuniUser) (uy nw : List UyuniUser) :
    uidsOf (statusFold staged uy nw).2.2 = uidsOf staged := by
  have h := statusFold_ld_pairs staged uy nw
  have h1 := congrArg (List.map Prod.fst) h
  simpa [uidsOf, List.map_map, Function.comp, uidNewPair] using h1

/-! ### Read phases issue no writes -/

theorem verifyIgnoredUsers_reads (env : Env) :
    ∀ l : List String, ∀ c ∈ (verifyIgnoredUsers env l).2, isWrite c = false := by
  intro l
  induction l with
  | nil => intro c hc; simp [verifyIgnoredUsers] at hc
  | cons uid rest ih =>
    intro c hc
    cases henv : env.listRoles uid with
    | none =>
      simp only [verifyIgnoredUsers, henv] at hc
      rcases List.mem_cons.mp hc with rfl | hc'
      · rfl
      · exact ih c hc'
    | some rs =>
      simp only [verifyIgnoredUsers, henv] at hc
      by_cases hadm : rs.contains "org_admin" = true
      · rw [if_pos hadm] at hc
        rcases List.mem_singleton.mp hc with rfl
        rfl
      · rw [if_neg hadm] at hc
        rcases List.mem_cons.mp hc with rfl | hc'
        · rfl
        · exact ih c hc'

theorem verifyIgnoredUsers_invalid (env : Env) :
    ∀ l : List String, (∀ uid ∈ l, guardMiss env uid = true) →
      (verifyIgnoredUsers env l).1 = false := by
  intro l
  induction l with
  | nil => intro _; rfl
  | cons uid rest ih =>
    intro h
    have hm := h uid (List.mem_cons_self uid rest)
    have hrec := ih (fun x hx => h x (List.mem_cons_of_mem uid hx))
    cases henv : env.listRoles uid with
    | none => simp only [verifyIgnoredUsers, henv]; exact hrec
    | some rs =>
      simp only [guardMiss, henv] at hm
      have hca : rs.contains "org_admin" = false := by
        cases hr : rs.contains "org_admin"
        · rfl
        · rw [hr] at hm; simp at hm
      simp only [verifyIgnoredUsers, henv, hca]
      exact hrec

theorem refreshLoginsGo_reads (env : Env) :
    ∀ logins : List String, ∀ c ∈ (refreshLoginsGo env logins).2, isWrite c = false := by
  intro logins
  induction logins with
  | nil => intro c hc; simp [refreshLoginsGo] at hc
  | cons login rest ih =>
    intro c hc
    by_cases hf : env.frozen.contains login = true
    · rw [show refreshLoginsGo env (login :: rest) = refreshLoginsGo env rest by
        simp only [refreshLoginsGo, if_pos hf]] at hc
      exact ih c hc
    · cases hd : env.getDetails login with
      | none =>
        simp only [refreshLoginsGo, if_neg hf, hd] at hc
        rcases List.mem_singleton.mp hc with rfl
        rfl
      | some d =>
        obtain ⟨email, first, last⟩ := d
        cases hr : env.listRoles login with
        | none =>
          simp only [refreshLoginsGo, if_neg hf, hd, hr] at hc
          rcases List.mem_cons.mp hc with rfl | hc'
          · rfl
          · rcases List.mem_singleton.mp hc' with rfl
            rfl
        | some rs =>
          simp only [refreshLoginsGo, if_neg hf, hd, hr] at hc
          rcases List.mem_cons.mp hc with rfl | hc'
          · rfl
          · rcases List.mem_cons.mp hc' with rfl | hc''
            · rfl
            · exact ih c hc''

theorem refreshExistingUyuniUsers_reads (env : Env) :
    ∀ c ∈ (refreshExistingUyuniUsers env).2, isWrite c = false := by
  intro c hc
  cases hl : env.listUsers with
  | none =>
    simp only [refreshExistingUyuniUsers, hl] at hc
    rcases List.mem_singleton.mp hc with rfl
    rfl
  | some logins =>
    simp only [refreshExistingUyuniUsers, hl] at hc
    rcases List.mem_cons.mp hc with rfl | hc'
    · rfl
    · exact refreshLoginsGo_reads env logins c hc'

theorem writesTargeting_eq_nil_of_reads {t : List Call}
    (h : ∀ c ∈ t, isWrite c = false) (uid : String) : writesTargeting t uid = [] := by
  unfold writesTargeting
  rw [List.filter_eq_nil_iff]
  intro c hc
  rw [h c hc]
  simp

theorem countP_eq_zero_of_reads {t : List Call} {p : Call → Bool}
    (hw : ∀ c, p c = true → isWrite c = true)
    (h : ∀ c ∈ t, isWrite c = false) : t.countP p = 0 := by
  rw [List.countP_eq_zero]
  intro c hc hp
  have := hw c hp
  rw [h c hc] at this
  exact Bool.false_ne_true this

theorem isCreateFor_isWrite {uid : String} {c : Call} (h : isCreateFor uid c = true) :
    isWrite c = true := by
  cases c <;> simp_all [isCreateFor, isWrite]

theorem isDeleteFor_isWrite {uid : String} {c : Call} (h : isDeleteFor uid c = true) :
    isWrite c = true := by
  cases c <;> simp_all [isDeleteFor, isWrite]

/-! ### The destination-derived users are fresh and non-frozen -/

theorem refreshLoginsGo_users (env : Env) :
    ∀ (logins : List String) (us : List UyuniUser),
      (refreshLoginsGo env logins).1 = some us →
        ∀ u ∈ us, env.frozen.contains u.Uid = false ∧ u.new = false := by
  intro logins
  induction logins with
  | nil =>
    intro us hus
    simp only [refreshLoginsGo, Option.some.injEq] at hus
    subst hus
    intro u hu
    simp at hu
  | cons login rest ih =>
    intro us hus u hu
    by_cases hf : env.frozen.contains login = true
    · rw [show refreshLoginsGo env (login :: rest) = refreshLoginsGo env rest by
        simp only [refreshLoginsGo, if_pos hf]] at hus
      exact ih us hus u hu
    · cases hd : env.getDetails login with
      | none =>
        simp only [refreshLoginsGo, if_neg hf, hd] at hus
        simp at hus
      | some d =>
        obtain ⟨email, first, last⟩ := d
        cases hr : env.listRoles login with
        | none =>
          simp only [refreshLoginsGo, if_neg hf, hd, hr] at hus
          simp at hus
        | some rs =>
          simp only [refreshLoginsGo, if_neg hf, hd, hr] at hus
          cases hrec : (refreshLoginsGo env rest).1 with
          | none => rw [hrec] at hus; simp at hus
          | some us' =>
            rw [hrec] at hus
            simp only [Option.map_some', Option.some.injEq] at hus
            subst hus
            rcases List.mem_cons.mp hu with rfl | hu'
            · refine ⟨?_, by simp [AddRoles_new, NewUyuniUser]⟩
              rw [AddRoles_Uid]
              show env.frozen.contains login = false
              cases hfc : env.frozen.contains login
              · rfl
              · exact absurd hfc hf
            · exact ih us' hrec u hu'

/-! ### The staged users are non-empty and non-frozen -/

theorem mergeRolesByAttributes_Uid (env : Env) (dn : String) (user : UyuniUser)
    (filter attrName : String) (uyuniRoles : List String) :
    (mergeRolesByAttributes env dn user filter attrName uyuniRoles).Uid = user.Uid := by
  unfold mergeRolesByAttributes
  refine foldl_preserve
    (fun (u : UyuniUser) (entry : Entry) =>
      (entry.getAttributeValues attrName).foldl
        (fun u roleDn => if roleDn == u.Dn then u.AddRoles uyuniRoles else u) u)
    (fun v => v.Uid = user.Uid) ?_ (env.search dn filter) user rfl
  intro b entry hb
  refine foldl_preserve
    (fun (u : UyuniUser) (roleDn : String) =>
      if roleDn == u.Dn then u.AddRoles uyuniRoles else u)
    (fun v => v.Uid = user.Uid) ?_ (entry.getAttributeValues attrName) b hb
  intro v roleDn hv
  show (if (roleDn == v.Dn) = true then v.AddRoles uyuniRoles else v).Uid = user.Uid
  by_cases hdn : (roleDn == v.Dn) = true
  · rw [if_pos hdn, AddRoles_Uid]; exact hv
  · rw [if_neg hdn]; exact hv

theorem updateLDAPUserRoles_Uid (env : Env) (user : UyuniUser) :
    (updateLDAPUserRoles env user).Uid = user.Uid := by
  simp only [updateLDAPUserRoles]
  refine foldl_preserve
    (fun (u : UyuniUser) (p : String × List String) =>
      mergeRolesByAttributes env p.1 u "(|(objectClass=groupOfNames)(objectClass=group))"
        "member" p.2)
    (fun v => v.Uid = user.Uid)
    (fun b p hb => by
      show (mergeRolesByAttributes env p.1 b
        "(|(objectClass=groupOfNames)(objectClass=group))" "member" p.2).Uid = user.Uid
      rw [mergeRolesByAttributes_Uid]; exact hb)
    env.groups _ ?_
  refine foldl_preserve
    (fun (u : UyuniUser) (p : String × List String) =>
      mergeRolesByAttributes env p.1 u "(objectClass=organizationalRole)" "roleOccupant" p.2)
    (fun v => v.Uid = user.Uid)
    (fun b p hb => by
      show (mergeRolesByAttributes env p.1 b
        "(objectClass=organizationalRole)" "roleOccupant" p.2).Uid = user.Uid
      rw [mergeRolesByAttributes_Uid]; exact hb)
    env.rolesCfg user rfl

theorem refreshStagedLDAPUsers_prop (env : Env) :
    ∀ u ∈ refreshStagedLDAPUsers env,
      u.Uid ≠ "" ∧ env.frozen.contains u.Uid = false := by
  unfold refreshStagedLDAPUsers
  apply foldl_preserve _
    (fun acc : List UyuniUser => ∀ u ∈ acc, u.Uid ≠ "" ∧ env.frozen.contains u.Uid = false)
  · intro acc udn hacc u hu
    by_cases hc : ((newUserFromDN env udn).Uid != "" &&
        !env.frozen.contains (newUserFromDN env udn).Uid)
    · rw [if_pos hc] at hu
      rcases List.mem_append.mp hu with hu' | hu'
      · exact hacc u hu'
      · rcases List.mem_singleton.mp hu' with rfl
        rw [Bool.and_eq_true] at hc
        constructor
        · rw [updateLDAPUserRoles_Uid]
          simpa using hc.1
        · rw [updateLDAPUserRoles_Uid]
          simpa using hc.2
    · rw [if_neg hc] at hu
      exact hacc u hu
  · intro u hu
    simp at hu

/-! ### Shapes of the push-phase traces -/

theorem pushUserRolesToUyuni_trace (env : Env) (dst : DstRoles) (u : UyuniUser) :
    (pushUserRolesToUyuni env dst u).2 =
      if env.roleListOk u.Uid then
        Call.listRoles u.Uid ::
          ((dst u.Uid).map (fun r => Call.removeRoleCall u.Uid r) ++
            u.GetRoles.map (fun r => Call.addRoleCall u.Uid r))
      else [Call.listRoles u.Uid] := by
  unfold pushUserRolesToUyuni
  split <;> rfl

theorem createNewUser_trace (env : Env) (dst : DstRoles) (u : UyuniUser) :
    (createNewUser env dst u).2 =
      if env.createOk u.Uid then
        Call.create u.Uid u.Name u.Secondname u.Email ::
          (pushUserRolesToUyuni env (updateDst dst u.Uid []) u).2
      else [Call.create u.Uid u.Name u.Secondname u.Email] := by
  unfold createNewUser
  split <;> rfl

theorem updateExistingUser_trace (env : Env) (dst : DstRoles) (u : UyuniUser) :
    (updateExistingUser env dst u).2 =
      (pushUserRolesToUyuni env dst u).2 ++ pushUserAccountDataToUyuni env u := rfl

theorem deleteUser_trace (dst : DstRoles) (u : UyuniUser) :
    (deleteUser dst u).2 = [Call.delete u.Uid] := rfl

theorem pushUserRolesToUyuni_target (env : Env) (dst : DstRoles) (u : UyuniUser) :
    ∀ c ∈ (pushUserRolesToUyuni env dst u).2, callTarget c = some u.Uid := by
  intro c hc
  rw [pushUserRolesToUyuni_trace] at hc
  split at hc
  · rcases List.mem_cons.mp hc with rfl | hc'
    · rfl
    · rcases List.mem_append.mp hc' with h | h
      · obtain ⟨r, -, rfl⟩ := List.mem_map.mp h
        rfl
      · obtain ⟨r, -, rfl⟩ := List.mem_map.mp h
        rfl
  · rcases List.mem_singleton.mp hc with rfl
    rfl

theorem pushUserAccountDataToUyuni_target (env : Env) (u : UyuniUser) :
    ∀ c ∈ pushUserAccountDataToUyuni env u, callTarget c = some u.Uid := by
  intro c hc
  unfold pushUserAccountDataToUyuni at hc
  rcases List.mem_cons.mp hc with rfl | hc'
  · rfl
  · split at hc'
    · rcases List.mem_singleton.mp hc' with rfl
      rfl
    · simp at hc'

theorem createNewUser_target (env : Env) (dst : DstRoles) (u : UyuniUser) :
    ∀ c ∈ (createNewUser env dst u).2, callTarget c = some u.Uid := by
  intro c hc
  rw [createNewUser_trace] at hc
  split at hc
  · rcases List.mem_cons.mp hc with rfl | hc'
    · rfl
    · exact pushUserRolesToUyuni_target env _ u c hc'
  · rcases List.mem_singleton.mp hc with rfl
    rfl

theorem updateExistingUser_target (env : Env) (dst : DstRoles) (u : UyuniUser) :
    ∀ c ∈ (updateExistingUser env dst u).2, callTarget c = some u.Uid := by
  intro c hc
  rw [updateExistingUser_trace] at hc
  rcases List.mem_append.mp hc with h | h
  · exact pushUserRolesToUyuni_target env dst u c h
  · exact pushUserAccountDataToUyuni_target env u c h

theorem deleteUser_target (dst : DstRoles) (u : UyuniUser) :
    ∀ c ∈ (deleteUser dst u).2, callTarget c = some u.Uid := by
  intro c hc
  rcases List.mem_singleton.mp (deleteUser_trace dst u ▸ hc) with rfl
  rfl

/-! ### Create and delete counts of the per-user push bodies -/

theorem pushUserRolesToUyuni_no_creates (env : Env) (dst : DstRoles) (u : UyuniUser)
    (uid : String) : ((pushUserRolesToUyuni env dst u).2).countP (isCreateFor uid) = 0 := by
  rw [List.countP_eq_zero]
  intro c hc
  rw [pushUserRolesToUyuni_trace] at hc
  split at hc
  · rcases List.mem_cons.mp hc with rfl | hc'
    · simp [isCreateFor]
    · rcases List.mem_append.mp hc' with h | h
      · obtain ⟨r, -, rfl⟩ := List.mem_map.mp h
        simp [isCreateFor]
      · obtain ⟨r, -, rfl⟩ := List.mem_map.mp h
        simp [isCreateFor]
  · rcases List.mem_singleton.mp hc with rfl
    simp [isCreateFor]

theorem pushUserRolesToUyuni_no_deletes (env : Env) (dst : DstRoles) (u : UyuniUser)
    (uid : String) : ((pushUserRolesToUyuni env dst u).2).countP (isDeleteFor uid) = 0 := by
  rw [List.countP_eq_zero]
  intro c hc
  rw [pushUserRolesToUyuni_trace] at hc
  split at hc
  · rcases List.mem_cons.mp hc with rfl | hc'
    · simp [isDeleteFor]
    · rcases List.mem_append.mp hc' with h | h
      · obtain ⟨r, -, rfl⟩ := List.mem_map.mp h
        simp [isDeleteFor]
      · obtain ⟨r, -, rfl⟩ := List.mem_map.mp h
        simp [isDeleteFor]
  · rcases List.mem_singleton.mp hc with rfl
    simp [isDeleteFor]

theorem createNewUser_creates (env : Env) (dst : DstRoles) (u : UyuniUser) (uid : String) :
    ((createNewUser env dst u).2).countP (isCreateFor uid)
      = if u.Uid == uid then 1 else 0 := by
  rw [createNewUser_trace]
  split
  · rw [List.countP_cons, pushUserRolesToUyuni_no_creates]
    simp [isCreateFor]
  · rw [show [Call.create u.Uid u.Name u.Secondname u.Email].countP (isCreateFor uid)
        = (if isCreateFor uid (Call.create u.Uid u.Name u.Secondname u.Email) then 1 else 0) by
      simp [List.countP_cons]]
    simp [isCreateFor]

theorem createNewUser_no_deletes (env : Env) (dst : DstRoles) (u : UyuniUser) (uid : String) :
    ((createNewUser env dst u).2).countP (isDeleteFor uid) = 0 := by
  rw [createNewUser_trace]
  split
  · rw [List.countP_cons, pushUserRolesToUyuni_no_deletes]
    simp [isDeleteFor]
  · simp [List.countP_cons, isDeleteFor]

theorem pushUserAccountDataToUyuni_no_creates (env : Env) (u : UyuniUser) (uid : String) :
    (pushUserAccountDataToUyuni env u).countP (isCreateFor uid) = 0 := by
  unfold pushUserAccountDataToUyuni
  split <;> simp [List.countP_cons, isCreateFor]

theorem pushUserAccountDataToUyuni_no_deletes (env : Env) (u : UyuniUser) (uid : String) :
    (pushUserAccountDataToUyuni env u).countP (isDeleteFor uid) = 0 := by
  unfold pushUserAccountDataToUyuni
  split <;> simp [List.countP_cons, isDeleteFor]

theorem updateExistingUser_no_creates (env : Env) (dst : DstRoles) (u : UyuniUser)
    (uid : String) : ((updateExistingUser env dst u).2).countP (isCreateFor uid) = 0 := by
  rw [updateExistingUser_trace, List.countP_append, pushUserRolesToUyuni_no_creates,
    pushUserAccountDataToUyuni_no_creates]

theorem updateExistingUser_no_deletes (env : Env) (dst : DstRoles) (u : UyuniUser)
    (uid : String) : ((updateExistingUser env dst u).2).countP (isDeleteFor uid) = 0 := by
  rw [updateExistingUser_trace, List.countP_append, pushUserRolesToUyuni_no_deletes,
    pushUserAccountDataToUyuni_no_deletes]

theorem deleteUser_deletes (dst : DstRoles) (u : UyuniUser) (uid : String) :
    ((deleteUser dst u).2).countP (isDeleteFor uid) = if u.Uid == uid then 1 else 0 := by
  rw [deleteUser_trace]
  simp [List.countP_cons, isDeleteFor]

theorem deleteUser_no_creates (dst : DstRoles) (u : UyuniUser) (uid : String) :
    ((deleteUser dst u).2).countP (isCreateFor uid) = 0 := by
  rw [deleteUser_trace]
  simp [List.countP_cons, isCreateFor]

/-! ### The sync phases: membership and counting -/

theorem syncPhase_cons (f : DstRoles → UyuniUser → DstRoles × List Call)
    (dst : DstRoles) (u : UyuniUser) (rest : List UyuniUser) :
    (syncPhase f dst (u :: rest)).2 = (f dst u).2 ++ (syncPhase f (f dst u).1 rest).2 := rfl

theorem syncPhase_trace_mem (f : DstRoles → UyuniUser → DstRoles × List Call) :
    ∀ (users : List UyuniUser) (dst : DstRoles) (c : Call),
      c ∈ (syncPhase f dst users).2 → ∃ u ∈ users, ∃ d, c ∈ (f d u).2 := by
  intro users
  induction users with
  | nil => intro dst c hc; simp [syncPhase] at hc
  | cons u rest ih =>
    intro dst c hc
    rw [syncPhase_cons] at hc
    rcases List.mem_append.mp hc with h | h
    · exact ⟨u, List.mem_cons_self u rest, dst, h⟩
    · obtain ⟨v, hv, d, hd⟩ := ih (f dst u).1 c h
      exact ⟨v, List.mem_cons_of_mem u hv, d, hd⟩

theorem syncPhase_countP (f : DstRoles → UyuniUser → DstRoles × List Call)
    (p : Call → Bool) (g : UyuniUser → Nat)
    (h : ∀ d u, ((f d u).2).countP p = g u) :
    ∀ (users : List UyuniUser) (dst : DstRoles),
      ((syncPhase f dst users).2).countP p = (users.map g).sum := by
  intro users
  induction users with
  | nil => intro dst; simp [syncPhase]
  | cons u rest ih =>
    intro dst
    rw [syncPhase_cons, List.countP_append, h, ih]
    simp

/-! ### UID-level counting helpers -/

theorem countP_beq_of_nodup {xs : List String} {x : String}
    (hnd : xs.Nodup) (hx : x ∈ xs) : xs.countP (fun s => s == x) = 1 := by
  induction xs with
  | nil => simp at hx
  | cons a rest ih =>
    have hn := List.nodup_cons.mp hnd
    rw [List.countP_cons]
    rcases List.mem_cons.mp hx with rfl | hx'
    · have h0 : rest.countP (fun s => s == x) = 0 := by
        rw [List.countP_eq_zero]
        intro s hs hbeq
        exact hn.1 ((beq_iff_eq.mp hbeq) ▸ hs)
      simp [h0]
    · have hne : (a == x) = false := by
        cases hb : a == x
        · rfl
        · exact absurd (beq_iff_eq.mp hb ▸ hx') hn.1
      rw [ih hn.2 hx', hne]
      simp

theorem countP_beq_filter {xs : List String} {p : String → Bool} {x : String}
    (hx : p x = true) :
    (xs.filter p).countP (fun s => s == x) = xs.countP (fun s => s == x) := by
  induction xs with
  | nil => rfl
  | cons a rest ih =>
    rw [List.filter_cons]
    by_cases hpa : p a = true
    · rw [if_pos hpa, List.countP_cons, List.countP_cons, ih]
    · rw [if_neg hpa, List.countP_cons, ih]
      have hne : (a == x) = false := by
        cases hb : a == x
        · rfl
        · exact absurd (beq_iff_eq.mp hb ▸ hx) hpa
      rw [hne]
      simp

theorem sum_map_ite_uid (users : List UyuniUser) (uid : String) :
    (users.map (fun u => if u.Uid == uid then 1 else 0)).sum
      = (uidsOf users).countP (fun s => s == uid) := by
  induction users with
  | nil => rfl
  | cons u rest ih =>
    simp only [List.map_cons, List.sum_cons, uidsOf, List.countP_cons] at ih ⊢
    rw [ih]
    cases h : u.Uid == uid
    · simp [h]
    · simp [h, Nat.add_comm]

/-! ### UID bookkeeping through the action lists -/

theorem uidIn_iff_mem_uidsOf {x : String} {users : List UyuniUser} :
    uidIn x users = true ↔ x ∈ uidsOf users := by
  rw [uidIn_iff]
  constructor
  · rintro ⟨u, hu, rfl⟩
    exact List.mem_map.mpr ⟨u, hu, rfl⟩
  · intro h
    obtain ⟨u, hu, rfl⟩ := List.mem_map.mp h
    exact ⟨u, hu, rfl⟩

theorem updateFromLDAPUser_Uid (ld : List UyuniUser) (u : UyuniUser) :
    (updateFromLDAPUser ld u).Uid = u.Uid := by
  unfold updateFromLDAPUser
  refine foldl_preserve
    (fun (uu : UyuniUser) (l : UyuniUser) =>
      if l.Uid == uu.Uid then
        ({ uu with
            Name := l.Name, Secondname := l.Secondname,
            Email := l.Email } : UyuniUser).FlushRoles.AddRoles l.GetRoles
      else uu)
    (fun v => v.Uid = u.Uid) ?_ ld u rfl
  intro b l hb
  show (if l.Uid == b.Uid then
      ({ b with
          Name := l.Name, Secondname := l.Secondname,
          Email := l.Email } : UyuniUser).FlushRoles.AddRoles l.GetRoles
    else b).Uid = u.Uid
  by_cases hdn : (l.Uid == b.Uid) = true
  · rw [if_pos hdn]
    exact hb
  · rw [if_neg hdn]
    exact hb

theorem GetNewUsers_uids (uy ld : List UyuniUser) :
    uidsOf (GetNewUsers uy ld) = uidsOf (uy.filter (fun u => u.IsNew)) := by
  unfold GetNewUsers uidsOf
  rw [List.map_map]
  exact List.map_congr_left (fun u _ => updateFromLDAPUser_Uid ld u)

theorem filter_new_uids_pairs (l : List UyuniUser) :
    uidsOf (l.filter (fun u => u.IsNew))
      = ((l.map uidNewPair).filter (fun p => p.2)).map Prod.fst := by
  induction l with
  | nil => rfl
  | cons u rest ih =>
    have hp2 : (uidNewPair u).2 = u.IsNew := rfl
    simp only [List.filter_cons, List.map_cons]
    cases hn : u.IsNew
    · rw [if_neg (by simp [hn]), if_neg (by simp [hp2, hn]), ih]
    · rw [if_pos (by simp [hn]), if_pos (by simp [hp2, hn])]
      simp only [uidsOf, List.map_cons] at ih ⊢
      rw [ih]
      rfl

theorem pairs_filter_all_false {M : List (String × Bool)}
    (h : ∀ p ∈ M, p.2 = false) : M.filter (fun p => p.2) = [] := by
  rw [List.filter_eq_nil_iff]
  intro p hp
  simp [h p hp]

theorem pairs_filter_all_true (xs : List String) :
    ((xs.map (fun x => (x, true))).filter (fun p => p.2)).map Prod.fst = xs := by
  induction xs with
  | nil => rfl
  | cons x rest ih => simpa using ih

/-- With a destination list whose users all carry `new = false`, the new-user
UIDs produced by classification are exactly the staged UIDs absent from the
destination. -/
theorem status_new_uids (staged uy0 : List UyuniUser)
    (h0 : ∀ u ∈ uy0, u.new = false) :
    uidsOf (GetNewUsers (refreshUyuniUsersStatus staged uy0).2 (refreshUyuniUsersStatus staged uy0).1)
      = (uidsOf staged).filter (fun x => !uidIn x uy0) := by
  rw [GetNewUsers_uids, filter_new_uids_pairs]
  show ((((statusFold staged uy0 []).1 ++ (statusFold staged uy0 []).2.1).map
      uidNewPair).filter (fun p => p.2)).map Prod.fst = _
  rw [List.map_append, List.filter_append, List.map_append]
  rw [statusFold_uy_pairs, statusFold_nw_pairs]
  have h1 : (uy0.map uidNewPair).filter (fun p => p.2) = [] := by
    apply pairs_filter_all_false
    intro p hp
    obtain ⟨u, hu, rfl⟩ := List.mem_map.mp hp
    exact h0 u hu
  rw [h1]
  simp only [List.map_nil, List.nil_append, List.map_nil, List.nil_append]
  exact pairs_filter_all_true _

/-- The UIDs present after classification come from the destination list or
from the staged list. -/
theorem status_uids_subset (staged uy0 : List UyuniUser) {x : String}
    (h : x ∈ uidsOf (refreshUyuniUsersStatus staged uy0).2) :
    x ∈ uidsOf uy0 ∨ x ∈ uidsOf staged := by
  have hx : x ∈ uidsOf ((statusFold staged uy0 []).1 ++ (statusFold staged uy0 []).2.1) := h
  rw [uidsOf, List.map_append, List.mem_append] at hx
  rcases hx with hx | hx
  · left
    have := statusFold_uy_uids staged uy0 []
    rw [uidsOf] at this
    rwa [this] at hx
  · right
    have hnw := statusFold_nw_pairs staged uy0 []
    have h1 := congrArg (List.map Prod.fst) hnw
    rw [List.map_map, List.map_nil, List.nil_append, List.map_map] at h1
    have hx' : x ∈ ((statusFold staged uy0 []).2.1).map (Prod.fst ∘ uidNewPair) := by
      have : (Prod.fst ∘ uidNewPair) = fun u : UyuniUser => u.Uid := rfl
      rw [this]
      exact hx
    rw [h1] at hx'
    obtain ⟨y, hy, rfl⟩ := List.mem_map.mp hx'
    exact List.mem_of_mem_filter hy

/-- The UIDs of the processed staged list equal the staged UIDs. -/
theorem status_ld_uids (staged uy0 : List UyuniUser) :
    uidsOf (refreshUyuniUsersStatus staged uy0).1 = uidsOf staged :=
  statusFold_ld_uids staged uy0 []

/-! ### Targets of the push step -/

theorem SyncUsers_target (env : Env) (ld uy all : List UyuniUser) (dst : DstRoles) :
    ∀ c ∈ (SyncUsers env ld uy all dst).2, ∃ x, callTarget c = some x ∧ x ∈ uidsOf uy := by
  intro c hc
  have htr : (SyncUsers env ld uy all dst).2
      = (syncPhase (createNewUser env) dst (GetNewUsers uy ld)).2 ++
        (syncPhase (updateExistingUser env)
          (syncPhase (createNewUser env) dst (GetNewUsers uy ld)).1 (GetOutdatedUsers uy)).2 ++
        (syncPhase deleteUser
          (syncPhase (updateExistingUser env)
            (syncPhase (createNewUser env) dst (GetNewUsers uy ld)).1 (GetOutdatedUsers uy)).1
          (GetDeletedUsers all ld uy)).2 := rfl
  rw [htr] at hc
  rcases List.mem_append.mp hc with hc' | hdel
  · rcases List.mem_append.mp hc' with hnew | hout
    · obtain ⟨u, hu, d, hd⟩ := syncPhase_trace_mem _ _ _ c hnew
      refine ⟨u.Uid, createNewUser_target env d u c hd, ?_⟩
      obtain ⟨v, hv, rfl⟩ := List.mem_map.mp hu
      rw [updateFromLDAPUser_Uid]
      exact List.mem_map.mpr ⟨v, List.mem_of_mem_filter hv, rfl⟩
    · obtain ⟨u, hu, d, hd⟩ := syncPhase_trace_mem _ _ _ c hout
      refine ⟨u.Uid, updateExistingUser_target env d u c hd, ?_⟩
      exact List.mem_map.mpr ⟨u, List.mem_of_mem_filter hu, rfl⟩
  · obtain ⟨u, hu, d, hd⟩ := syncPhase_trace_mem _ _ _ c hdel
    refine ⟨u.Uid, deleteUser_target d u c hd, ?_⟩
    have hin : inUsers u uy = true := by
      have := List.of_mem_filter hu
      exact (Bool.and_eq_true _ _ |>.mp this).2
    exact uidIn_iff_mem_uidsOf.mp hin

/-! ### Unfolding a full run -/

theorem runSync_invalid (env : Env)
    (hg : (verifyIgnoredUsers env env.frozen).1 = false) :
    runSync env = (verifyIgnoredUsers env env.frozen).2 := by
  simp only [runSync, hg]
  rfl

theorem runSync_valid (env : Env) (uy0 : List UyuniUser) (t1 : List Call)
    (hg : (verifyIgnoredUsers env env.frozen).1 = true)
    (hx : refreshExistingUyuniUsers env = (some uy0, t1)) :
    runSync env = (verifyIgnoredUsers env env.frozen).2 ++ t1 ++
      (SyncUsers env (refreshUyuniUsersStatus (refreshStagedLDAPUsers env) uy0).1
        (refreshUyuniUsersStatus (refreshStagedLDAPUsers env) uy0).2
        (refreshAllLDAPUsers env) (fun uid => (env.listRoles uid).getD [])).2 := by
  simp only [runSync, hg, if_true, hx]

theorem refreshExisting_users (env : Env) (uy0 : List UyuniUser) (t1 : List Call)
    (hx : refreshExistingUyuniUsers env = (some uy0, t1)) :
    ∀ u ∈ uy0, env.frozen.contains u.Uid = false ∧ u.new = false := by
  unfold refreshExistingUyuniUsers at hx
  cases hl : env.listUsers with
  | none =>
    rw [hl] at hx
    simp at hx
  | some logins =>
    rw [hl] at hx
    simp only [Prod.mk.injEq] at hx
    exact refreshLoginsGo_users env logins uy0 hx.1

theorem syncPhase_countP_zero (f : DstRoles → UyuniUser → DstRoles × List Call)
    (p : Call → Bool) (h : ∀ d u, ((f d u).2).countP p = 0) :
    ∀ (users : List UyuniUser) (dst : DstRoles),
      ((syncPhase f dst users).2).countP p = 0 := by
  intro users
  induction users with
  | nil => intro dst; simp [syncPhase]
  | cons u rest ih =>
    intro dst
    rw [syncPhase_cons, List.countP_append, h, ih]

theorem SyncUsers_countCreates (env : Env) (ld uy all : List UyuniUser)
    (dst : DstRoles) (uid : String) :
    ((SyncUsers env ld uy all dst).2).countP (isCreateFor uid)
      = (uidsOf (GetNewUsers uy ld)).countP (fun s => s == uid) := by
  show ((syncPhase (createNewUser env) dst (GetNewUsers uy ld)).2 ++
      (syncPhase (updateExistingUser env)
        (syncPhase (createNewUser env) dst (GetNewUsers uy ld)).1 (GetOutdatedUsers uy)).2 ++
      (syncPhase deleteUser
        (syncPhase (updateExistingUser env)
          (syncPhase (createNewUser env) dst (GetNewUsers uy ld)).1 (GetOutdatedUsers uy)).1
        (GetDeletedUsers all ld uy)).2).countP (isCreateFor uid) = _
  rw [List.countP_append, List.countP_append]
  rw [syncPhase_countP (createNewUser env) (isCreateFor uid)
    (fun u => if u.Uid == uid then 1 else 0) (fun d u => createNewUser_creates env d u uid)]
  rw [syncPhase_countP_zero (updateExistingUser env) (isCreateFor uid)
    (fun d u => updateExistingUser_no_creates env d u uid)]
  rw [syncPhase_countP_zero deleteUser (isCreateFor uid)
    (fun d u => deleteUser_no_creates d u uid)]
  rw [sum_map_ite_uid]
  omega

theorem SyncUsers_countDeletes (env : Env) (ld uy all : List UyuniUser)
    (dst : DstRoles) (uid : String) :
    ((SyncUsers env ld uy all dst).2).countP (isDeleteFor uid)
      = (uidsOf (GetDeletedUsers all ld uy)).countP (fun s => s == uid) := by
  show ((syncPhase (createNewUser env) dst (GetNewUsers uy ld)).2 ++
      (syncPhase (updateExistingUser env)
        (syncPhase (createNewUser env) dst (GetNewUsers uy ld)).1 (GetOutdatedUsers uy)).2 ++
      (syncPhase deleteUser
        (syncPhase (updateExistingUser env)
          (syncPhase (createNewUser env) dst (GetNewUsers uy ld)).1 (GetOutdatedUsers uy)).1
        (GetDeletedUsers all ld uy)).2).countP (isDeleteFor uid) = _
  rw [List.countP_append, List.countP_append]
  rw [syncPhase_countP_zero (createNewUser env) (isDeleteFor uid)
    (fun d u => createNewUser_no_deletes env d u uid)]
  rw [syncPhase_countP_zero (updateExistingUser env) (isDeleteFor uid)
    (fun d u => updateExistingUser_no_deletes env d u uid)]
  rw [syncPhase_countP (deleteUser) (isDeleteFor uid)
    (fun u => if u.Uid == uid then 1 else 0) (fun d u => deleteUser_deletes d u uid)]
  rw [sum_map_ite_uid]
  omega

/-! ### Evaluating UID-keyed filters over the classification output -/

theorem filter_uid_new_pairs (l : List UyuniUser) (uid : String) :
    (l.filter (fun u => u.Uid == uid)).map (fun u => u.new)
      = ((l.map uidNewPair).filter (fun p => p.1 == uid)).map Prod.snd := by
  induction l with
  | nil => rfl
  | cons u rest ih =>
    have hp1 : (uidNewPair u).1 = u.Uid := rfl
    simp only [List.filter_cons, List.map_cons]
    cases hb : u.Uid == uid
    · rw [if_neg (by simp [hb]), if_neg (by simp [hp1, hb]), ih]
    · rw [if_pos (by simp [hb]), if_pos (by simp [hp1, hb])]
      simp only [List.map_cons]
      rw [ih]
      rfl

theorem filter_pairs_by_uid_eval (g : UyuniUser → Bool) :
    ∀ (staged : List UyuniUser) (uid : String) (u : UyuniUser),
      (uidsOf staged).Nodup → u ∈ staged → u.Uid = uid →
      ((staged.map (fun v => (v.Uid, g v))).filter (fun p => p.1 == uid)).map Prod.snd
        = [g u] := by
  intro staged
  induction staged with
  | nil => intro uid u _ hu; simp at hu
  | cons w rest ih =>
    intro uid u hnd hu huid
    have hnd2 : (w.Uid :: uidsOf rest).Nodup := hnd
    have hn := List.nodup_cons.mp hnd2
    simp only [List.map_cons, List.filter_cons]
    rcases List.mem_cons.mp hu with rfl | hu'
    · rw [if_pos (by simp [huid])]
      have hrest : (rest.map (fun v => (v.Uid, g v))).filter (fun p => p.1 == uid) = [] := by
        rw [List.filter_eq_nil_iff]
        intro p hp
        obtain ⟨v, hv, rfl⟩ := List.mem_map.mp hp
        intro hbe
        have : v.Uid = uid := by simpa using hbe
        exact hn.1 (huid ▸ this ▸ List.mem_map.mpr ⟨v, hv, rfl⟩)
      rw [hrest]
      rfl
    · have hwne : (w.Uid == uid) = false := by
        have : w.Uid ≠ uid := by
          intro he
          exact hn.1 (he ▸ huid ▸ List.mem_map.mpr ⟨u, hu', rfl⟩)
        simpa using this
      rw [if_neg (by simp [hwne])]
      exact ih uid u hn.2 hu' huid

theorem countP_uids_filter (cond : UyuniUser → Bool) (all : List UyuniUser) (uid : String) :
    (uidsOf (all.filter cond)).countP (fun s => s == uid)
      = all.countP (fun u => cond u && (u.Uid == uid)) := by
  induction all with
  | nil => rfl
  | cons u rest ih =>
    simp only [List.filter_cons, List.countP_cons]
    cases hc : cond u
    · rw [if_neg (by simp [hc]), ih]
      simp
    · rw [if_pos (by simp [hc])]
      simp only [uidsOf, List.map_cons, List.countP_cons]
      rw [show uidsOf (List.filter cond rest) = List.map (fun u => u.Uid) (List.filter cond rest)
        from rfl] at ih
      rw [ih]
      simp

theorem countP_cond_uid_eq_one (cond : UyuniUser → Bool) :
    ∀ (all : List UyuniUser) (uid : String) (u0 : UyuniUser),
      (uidsOf all).Nodup → u0 ∈ all → u0.Uid = uid → cond u0 = true →
      all.countP (fun u => cond u && (u.Uid == uid)) = 1 := by
  intro all
  induction all with
  | nil => intro uid u0 _ hu; simp at hu
  | cons w rest ih =>
    intro uid u0 hnd hu huid hcond
    have hnd2 : (w.Uid :: uidsOf rest).Nodup := hnd
    have hn := List.nodup_cons.mp hnd2
    rw [List.countP_cons]
    rcases List.mem_cons.mp hu with rfl | hu'
    · have hrest : rest.countP (fun u => cond u && (u.Uid == uid)) = 0 := by
        rw [List.countP_eq_zero]
        intro v hv hb
        have hb2 := (Bool.and_eq_true _ _ |>.mp hb).2
        have : v.Uid = uid := by simpa using hb2
        exact hn.1 (huid ▸ this ▸ List.mem_map.mpr ⟨v, hv, rfl⟩)
      rw [hrest]
      simp [hcond, huid]
    · have hwne : (w.Uid == uid) = false := by
        have : w.Uid ≠ uid := by
          intro he
          exact hn.1 (he ▸ huid ▸ List.mem_map.mpr ⟨u0, hu', rfl⟩)
        simpa using this
      rw [ih uid u0 hn.2 hu' huid hcond]
      simp [hwne]

/-! ### Fatal-listing run shape -/

theorem runSync_fatal (env : Env) (t1 : List Call)
    (hg : (verifyIgnoredUsers env env.frozen).1 = true)
    (hx : refreshExistingUyuniUsers env = (none, t1)) :
    runSync env = (verifyIgnoredUsers env env.frozen).2 ++ t1 := by
  simp only [runSync, hg, if_true, hx]

/-! ### Claim theorems -/

/-- Claim C1: when no frozen UID holds `org_admin` on the destination
(including when every role lookup fails), the run aborts at the lockout
guard: the whole observable trace is the guard's own `user.listRoles` calls,
and in particular zero write calls to the account store are issued — no
create, update or delete happens, and nothing past the guard (destination
listing, staged-set computation, push) runs. -/
theorem lockout_guard_aborts_run (env : Env)
    (h : env.frozen.all (fun uid => guardMiss env uid) = true) :
    runSync env = (verifyIgnoredUsers env env.frozen).2 ∧
      (runSync env).filter isWrite = [] := by
  have hmiss : ∀ uid ∈ env.frozen, guardMiss env uid = true := by
    rw [List.all_eq_true] at h
    exact h
  have hg := verifyIgnoredUsers_invalid env env.frozen hmiss
  have h1 := runSync_invalid env hg
  refine ⟨h1, ?_⟩
  rw [h1, List.filter_eq_nil_iff]
  intro c hc
  rw [verifyIgnoredUsers_reads env env.frozen c hc]
  simp

/-- Claim C2: a frozen UID is never the target of any write call
(`user.create`, `user.setDetails`, `user.usePamAuthentication`,
`user.delete`, `user.addRole`, `user.removeRole`) in any run. -/
theorem frozen_never_written (env : Env) (uid : String)
    (hf : env.frozen.contains uid = true) :
    writesTargeting (runSync env) uid = [] := by
  cases hg : (verifyIgnoredUsers env env.frozen).1 with
  | false =>
    rw [runSync_invalid env hg]
    exact writesTargeting_eq_nil_of_reads (verifyIgnoredUsers_reads env env.frozen) uid
  | true =>
    rcases hx : refreshExistingUyuniUsers env with ⟨res, t1⟩
    have ht1 : ∀ c ∈ t1, isWrite c = false := by
      intro c hc
      exact refreshExistingUyuniUsers_reads env c (by rw [hx]; exact hc)
    cases res with
    | none =>
      rw [runSync_fatal env t1 hg hx]
      unfold writesTargeting
      rw [List.filter_append]
      rw [show (verifyIgnoredUsers env env.frozen).2.filter
            (fun c => isWrite c && (callTarget c == some uid)) = []
          from writesTargeting_eq_nil_of_reads (verifyIgnoredUsers_reads env env.frozen) uid]
      rw [show t1.filter (fun c => isWrite c && (callTarget c == some uid)) = []
          from writesTargeting_eq_nil_of_reads ht1 uid]
      rfl
    | some uy0 =>
      rw [runSync_valid env uy0 t1 hg hx]
      unfold writesTargeting
      rw [List.filter_append, List.filter_append]
      rw [show (verifyIgnoredUsers env env.frozen).2.filter
            (fun c => isWrite c && (callTarget c == some uid)) = []
          from writesTargeting_eq_nil_of_reads (verifyIgnoredUsers_reads env env.frozen) uid]
      rw [show t1.filter (fun c => isWrite c && (callTarget c == some uid)) = []
          from writesTargeting_eq_nil_of_reads ht1 uid]
      rw [show ((SyncUsers env
            (refreshUyuniUsersStatus (refreshStagedLDAPUsers env) uy0).1
            (refreshUyuniUsersStatus (refreshStagedLDAPUsers env) uy0).2
            (refreshAllLDAPUsers env) (fun u => (env.listRoles u).getD [])).2).filter
            (fun c => isWrite c && (callTarget c == some uid)) = [] from ?_]
      · rfl
      rw [List.filter_eq_nil_iff]
      intro c hc hcond
      obtain ⟨x, hxt, hxm⟩ := SyncUsers_target env _ _ _ _ c hc
      rcases status_uids_subset (refreshStagedLDAPUsers env) uy0 hxm with hx0 | hxs
      · obtain ⟨u, hu, rfl⟩ := List.mem_map.mp hx0
        have hnf := (refreshExisting_users env uy0 t1 hx u hu).1
        have : (callTarget c == some uid) = true := (Bool.and_eq_true _ _ |>.mp hcond).2
        have heq : callTarget c = some uid := by simpa using this
        rw [hxt] at heq
        have : u.Uid = uid := by simpa using heq
        rw [this] at hnf
        rw [hf] at hnf
        exact Bool.noConfusion hnf
      · obtain ⟨u, hu, rfl⟩ := List.mem_map.mp hxs
        have hnf := (refreshStagedLDAPUsers_prop env u hu).2
        have : (callTarget c == some uid) = true := (Bool.and_eq_true _ _ |>.mp hcond).2
        have heq : callTarget c = some uid := by simpa using this
        rw [hxt] at heq
        have : u.Uid = uid := by simpa using heq
        rw [this] at hnf
        rw [hf] at hnf
        exact Bool.noConfusion hnf

/-- Claim C3: a staged directory user whose UID is absent from the
destination-derived set is marked new by classification, and the push step
issues exactly one `user.create` call for that UID over the whole run. -/
theorem new_user_marked_and_created_once (env : Env) (uid : String)
    (uy0 : List UyuniUser) (t1 : List Call)
    (hg : (verifyIgnoredUsers env env.frozen).1 = true)
    (hx : refreshExistingUyuniUsers env = (some uy0, t1))
    (hnd : (uidsOf (refreshStagedLDAPUsers env)).Nodup)
    (hin : uid ∈ uidsOf (refreshStagedLDAPUsers env))
    (hout : uidIn uid uy0 = false) :
    (((refreshUyuniUsersStatus (refreshStagedLDAPUsers env) uy0).1.filter
        (fun u => u.Uid == uid)).map (fun u => u.new) = [true]) ∧
      countCreates (runSync env) uid = 1 := by
  obtain ⟨u, hu, huid⟩ : ∃ u ∈ refreshStagedLDAPUsers env, u.Uid = uid := by
    obtain ⟨u, hu, rfl⟩ := List.mem_map.mp hin
    exact ⟨u, hu, rfl⟩
  constructor
  · rw [filter_uid_new_pairs]
    rw [show ((refreshUyuniUsersStatus (refreshStagedLDAPUsers env) uy0).1).map uidNewPair
        = (refreshStagedLDAPUsers env).map (fun v => (v.Uid, !uidIn v.Uid uy0))
      from statusFold_ld_pairs (refreshStagedLDAPUsers env) uy0 []]
    rw [filter_pairs_by_uid_eval (fun v => !uidIn v.Uid uy0)
      (refreshStagedLDAPUsers env) uid u hnd hu huid]
    rw [huid, hout]
    rfl
  · rw [runSync_valid env uy0 t1 hg hx]
    unfold countCreates
    rw [List.countP_append, List.countP_append]
    rw [countP_eq_zero_of_reads (fun c => isCreateFor_isWrite)
      (verifyIgnoredUsers_reads env env.frozen)]
    rw [countP_eq_zero_of_reads (fun c => isCreateFor_isWrite)
      (fun c hc => refreshExistingUyuniUsers_reads env c (by rw [hx]; exact hc))]
    rw [SyncUsers_countCreates]
    rw [status_new_uids (refreshStagedLDAPUsers env) uy0
      (fun u hu => (refreshExisting_users env uy0 t1 hx u hu).2)]
    rw [countP_beq_filter (by rw [hout]; rfl)]
    rw [countP_beq_of_nodup hnd hin]

/-- Claim C5: a user present in the full directory set and in the
destination-derived set but absent from the staged set is classified as
deleted, and the push step issues exactly one `user.delete` call for that
UID over the whole run. -/
theorem deleted_user_classified_and_deleted_once (env : Env) (uid : String)
    (uy0 : List UyuniUser) (t1 : List Call) (u0 : UyuniUser)
    (hg : (verifyIgnoredUsers env env.frozen).1 = true)
    (hx : refreshExistingUyuniUsers env = (some uy0, t1))
    (hndAll : (uidsOf (refreshAllLDAPUsers env)).Nodup)
    (hu0 : u0 ∈ refreshAllLDAPUsers env) (hu0uid : u0.Uid = uid)
    (hdest : uidIn uid uy0 = true)
    (hnotStaged : uidIn uid (refreshStagedLDAPUsers env) = false) :
    uidIn uid (GetDeletedUsers (refreshAllLDAPUsers env)
        (refreshUyuniUsersStatus (refreshStagedLDAPUsers env) uy0).1
        (refreshUyuniUsersStatus (refreshStagedLDAPUsers env) uy0).2) = true ∧
      countDeletes (runSync env) uid = 1 := by
  have hldF : uidIn uid (refreshUyuniUsersStatus (refreshStagedLDAPUsers env) uy0).1
      = false := by
    rw [uidIn_congr (status_ld_uids (refreshStagedLDAPUsers env) uy0)]
    exact hnotStaged
  have huyF : uidIn uid (refreshUyuniUsersStatus (refreshStagedLDAPUsers env) uy0).2
      = true := by
    show uidIn uid ((statusFold (refreshStagedLDAPUsers env) uy0 []).1 ++
      (statusFold (refreshStagedLDAPUsers env) uy0 []).2.1) = true
    rw [uidIn_append, uidIn_statusFold_uy, hdest]
    rfl
  have hcond : (!inUsers u0 (refreshUyuniUsersStatus (refreshStagedLDAPUsers env) uy0).1 &&
      inUsers u0 (refreshUyuniUsersStatus (refreshStagedLDAPUsers env) uy0).2) = true := by
    unfold inUsers
    rw [hu0uid, hldF, huyF]
    rfl
  have hmem : u0 ∈ GetDeletedUsers (refreshAllLDAPUsers env)
      (refreshUyuniUsersStatus (refreshStagedLDAPUsers env) uy0).1
      (refreshUyuniUsersStatus (refreshStagedLDAPUsers env) uy0).2 :=
    List.mem_filter.mpr ⟨hu0, hcond⟩
  constructor
  · exact uidIn_iff.mpr ⟨u0, hmem, hu0uid⟩
  · rw [runSync_valid env uy0 t1 hg hx]
    unfold countDeletes
    rw [List.countP_append, List.countP_append]
    rw [countP_eq_zero_of_reads (fun c => isDeleteFor_isWrite)
      (verifyIgnoredUsers_reads env env.frozen)]
    rw [countP_eq_zero_of_reads (fun c => isDeleteFor_isWrite)
      (fun c hc => refreshExistingUyuniUsers_reads env c (by rw [hx]; exact hc))]
    rw [SyncUsers_countDeletes]
    unfold GetDeletedUsers
    rw [countP_uids_filter]
    rw [countP_cond_uid_eq_one _ (refreshAllLDAPUsers env) uid u0 hndAll hu0 hu0uid hcond]

/-! ### Full role replacement -/

theorem foldl_cond_all {α β : Type} (f : β → α → β) (q : α → Bool) :
    ∀ (l : List α), (∀ r ∈ l, q r = true) →
      ∀ s : β, l.foldl (fun s r => if q r then f s r else s) s = l.foldl f s := by
  intro l
  induction l with
  | nil => intro _ s; rfl
  | cons a rest ih =>
    intro hq s
    simp only [List.foldl_cons, if_pos (hq a (List.mem_cons_self a rest))]
    exact ih (fun r hr => hq r (List.mem_cons_of_mem a hr)) (f s a)

theorem foldl_erase_eq_diff : ∀ (l s : List String),
    l.foldl (fun s r => s.erase r) s = s.diff l := by
  intro l
  induction l with
  | nil => intro s; simp
  | cons a rest ih =>
    intro s
    rw [List.foldl_cons, ih, List.diff_cons]

theorem diff_self_nil : ∀ l : List String, l.diff l = [] := by
  intro l
  induction l with
  | nil => rfl
  | cons a rest ih =>
    rw [List.diff_cons, List.erase_cons_head]
    -- after removing the head, removing the remaining elements of `rest`
    -- from `rest` is the inductive case
    exact ih

/-- Claim C4: a user present in both sets with equal uid, email, given and
family name but a differing role set is marked outdated by classification,
and the role push replaces the destination role set wholesale: it lists the
current roles, removes every one of them, adds every directory-derived role,
and leaves the destination role set exactly equal to the directory-derived
one. -/
theorem outdated_marked_and_roles_replaced (users nw : List UyuniUser)
    (d u : UyuniUser) (env : Env) (dst : DstRoles)
    (hfind : users.find? (fun v => v.Uid == d.Uid) = some u)
    (hEmail : u.Email = d.Email) (hName : u.Name = d.Name)
    (hSnd : u.Secondname = d.Secondname)
    (hRoles : CompareRoles d u = false)
    (hndRoles : d.roles.Nodup)
    (hlistOk : env.roleListOk d.Uid = true)
    (hremOk : (dst d.Uid).all (fun r => env.removeOk d.Uid r) = true)
    (haddOk : d.roles.all (fun r => env.addOk d.Uid r) = true) :
    (refreshStatusStep users nw d).2.2.outdated = true ∧
      (pushUserRolesToUyuni env dst d).1 d.Uid = d.roles ∧
      (pushUserRolesToUyuni env dst d).2 =
        Call.listRoles d.Uid ::
          ((dst d.Uid).map (fun r => Call.removeRoleCall d.Uid r) ++
            d.roles.map (fun r => Call.addRoleCall d.Uid r)) := by
  have hinU : uidIn d.Uid users = true := by
    rw [uidIn_iff]
    refine ⟨u, List.mem_of_find?_eq_some hfind, ?_⟩
    have := List.find?_some hfind
    simpa using this
  refine ⟨?_, ?_, ?_⟩
  · obtain ⟨s, u', hs, hout⟩ := statusProcessUser_of_uidIn hinU
    have hfind' : users.find? (fun v =>
        v.Uid == ({ d with new := false } : UyuniUser).Uid) = some u := hfind
    have hCR : CompareRoles ({ d with new := false } : UyuniUser) u = false := hRoles
    have hs2 := hs
    simp only [sameAsIn, hfind', hfind, Option.some.injEq, Prod.mk.injEq] at hs2
    have hsfalse : s = false := by
      rw [← hs2.1]
      simp [hEmail, hName, hSnd, hCR]
    show (statusProcessUser users d).outdated = true
    rw [hout, hsfalse]
    rfl
  · show (pushUserRolesToUyuni env dst d).1 d.Uid = d.roles
    unfold pushUserRolesToUyuni
    rw [if_pos hlistOk]
    have hrem : (dst d.Uid).foldl
        (fun s r => if env.removeOk d.Uid r then s.erase r else s) (dst d.Uid)
        = [] := by
      rw [foldl_cond_all (fun s r => s.erase r) (fun r => env.removeOk d.Uid r)
        (dst d.Uid) (List.all_eq_true.mp hremOk) (dst d.Uid)]
      rw [foldl_erase_eq_diff, diff_self_nil]
    show updateDst dst d.Uid _ d.Uid = d.roles
    unfold updateDst
    rw [if_pos (by simp)]
    rw [hrem]
    show d.GetRoles.foldl (fun s r => if env.addOk d.Uid r then addRole s r else s) []
      = d.roles
    rw [foldl_cond_all addRole (fun r => env.addOk d.Uid r) d.GetRoles
      (List.all_eq_true.mp haddOk) []]
    exact foldl_addRole_nil hndRoles
  · rw [pushUserRolesToUyuni_trace, if_pos hlistOk]
    rfl

/-- Claim C10: when classification reaches the field-by-field comparison for
a staged user whose UID was found in the destination list, the comparison's
user-not-found error branch is unreachable, and the `outdated` flag is
assigned from the comparison's verdict. -/
theorem sameAsIn_reachable_for_non_new (users nw : List UyuniUser) (user : UyuniUser)
    (h : uidIn user.Uid users = true) :
    (sameAsIn { user with new := false } users).isSome = true ∧
      (refreshStatusStep users nw user).2.2.outdated
        = !(((sameAsIn { user with new := false } users).getD (true, user)).1) := by
  have h' : uidIn ({ user with new := false } : UyuniUser).Uid users = true := h
  refine ⟨sameAsIn_isSome_of_uidIn h', ?_⟩
  obtain ⟨s, u', hs, hout⟩ := statusProcessUser_of_uidIn h
  show (statusProcessUser users user).outdated = _
  rw [hout, hs]
  rfl

/-! ### Role union: membership characterization and order independence -/

theorem AddRoles_mem (u : UyuniUser) (rs : List String) (r : String) :
    r ∈ (u.AddRoles rs).roles ↔ r ∈ u.roles ∨ r ∈ rs := by
  rw [AddRoles_roles, mem_foldl_addRole]

theorem mergeInner_spec (rs : List String) (r : String) :
    ∀ (values : List String) (u : UyuniUser),
      ((values.foldl (fun u roleDn => if roleDn == u.Dn then u.AddRoles rs else u) u).Dn
        = u.Dn) ∧
      (r ∈ (values.foldl (fun u roleDn => if roleDn == u.Dn then u.AddRoles rs else u) u).roles
        ↔ r ∈ u.roles ∨ (r ∈ rs ∧ u.Dn ∈ values)) := by
  intro values
  induction values with
  | nil => intro u; simp
  | cons v vs ih =>
    intro u
    simp only [List.foldl_cons]
    by_cases hv : (v == u.Dn) = true
    · rw [if_pos hv]
      obtain ⟨ihDn, ihMem⟩ := ih (u.AddRoles rs)
      have hveq : v = u.Dn := by simpa using hv
      constructor
      · rw [ihDn, AddRoles_Dn]
      · rw [ihMem, AddRoles_mem, AddRoles_Dn]
        subst hveq
        simp only [List.mem_cons]
        tauto
    · rw [if_neg hv]
      obtain ⟨ihDn, ihMem⟩ := ih u
      refine ⟨ihDn, ?_⟩
      rw [ihMem]
      have hvne : u.Dn ≠ v := by
        intro he
        exact hv (by simp [he])
      simp only [List.mem_cons]
      constructor
      · rintro (h | ⟨h1, h2⟩)
        · exact Or.inl h
        · exact Or.inr ⟨h1, Or.inr h2⟩
      · rintro (h | ⟨h1, h2 | h2⟩)
        · exact Or.inl h
        · exact absurd h2 hvne
        · exact Or.inr ⟨h1, h2⟩

theorem mergeRolesByAttributes_spec (env : Env) (dn : String)
    (filter attrName : String) (rs : List String) (r : String) :
    ∀ user : UyuniUser,
      ((mergeRolesByAttributes env dn user filter attrName rs).Dn = user.Dn) ∧
      (r ∈ (mergeRolesByAttributes env dn user filter attrName rs).roles
        ↔ r ∈ user.roles ∨
          (r ∈ rs ∧ ∃ e ∈ env.search dn filter, user.Dn ∈ e.getAttributeValues attrName)) := by
  suffices h : ∀ (entries : List Entry) (user : UyuniUser),
      ((entries.foldl (fun u entry =>
          (entry.getAttributeValues attrName).foldl
            (fun u roleDn => if roleDn == u.Dn then u.AddRoles rs else u) u) user).Dn
        = user.Dn) ∧
      (r ∈ (entries.foldl (fun u entry =>
          (entry.getAttributeValues attrName).foldl
            (fun u roleDn => if roleDn == u.Dn then u.AddRoles rs else u) u) user).roles
        ↔ r ∈ user.roles ∨
          (r ∈ rs ∧ ∃ e ∈ entries, user.Dn ∈ e.getAttributeValues attrName)) by
    intro user
    exact h (env.search dn filter) user
  intro entries
  induction entries with
  | nil => intro user; simp
  | cons e es ih =>
    intro user
    simp only [List.foldl_cons]
    obtain ⟨inDn, inMem⟩ := mergeInner_spec rs r (e.getAttributeValues attrName) user
    obtain ⟨ihDn, ihMem⟩ := ih ((e.getAttributeValues attrName).foldl
      (fun u roleDn => if roleDn == u.Dn then u.AddRoles rs else u) user)
    constructor
    · rw [ihDn, inDn]
    · rw [ihMem, inMem, inDn]
      simp only [List.mem_cons]
      constructor
      · rintro ((h | ⟨h1, h2⟩) | ⟨h1, e', he', h2⟩)
        · exact Or.inl h
        · exact Or.inr ⟨h1, e, Or.inl rfl, h2⟩
        · exact Or.inr ⟨h1, e', Or.inr he', h2⟩
      · rintro (h | ⟨h1, e', (rfl | he'), h2⟩)
        · exact Or.inl (Or.inl h)
        · exact Or.inl (Or.inr ⟨h1, h2⟩)
        · exact Or.inr ⟨h1, e', he', h2⟩

theorem mergeRolesByAttributes_nodup (env : Env) (dn : String) (user : UyuniUser)
    (filter attrName : String) (rs : List String) (h : user.roles.Nodup) :
    (mergeRolesByAttributes env dn user filter attrName rs).roles.Nodup := by
  unfold mergeRolesByAttributes
  refine foldl_preserve
    (fun (u : UyuniUser) (entry : Entry) =>
      (entry.getAttributeValues attrName).foldl
        (fun u roleDn => if roleDn == u.Dn then u.AddRoles rs else u) u)
    (fun v => v.roles.Nodup) ?_ (env.search dn filter) user h
  intro b entry hb
  refine foldl_preserve
    (fun (u : UyuniUser) (roleDn : String) =>
      if roleDn == u.Dn then u.AddRoles rs else u)
    (fun v => v.roles.Nodup) ?_ (entry.getAttributeValues attrName) b hb
  intro v roleDn hv
  show (if (roleDn == v.Dn) = true then v.AddRoles rs else v).roles.Nodup
  by_cases hdn : (roleDn == v.Dn) = true
  · rw [if_pos hdn, AddRoles_roles]
    exact nodup_foldl_addRole rs v.roles hv
  · rw [if_neg hdn]
    exact hv

theorem applyMerges_spec (env : Env) (r : String) :
    ∀ (l : List MergeEntry) (user : UyuniUser),
      ((applyMerges env user l).Dn = user.Dn) ∧
      (r ∈ (applyMerges env user l).roles
        ↔ r ∈ user.roles ∨ ∃ e ∈ l, grantsRole env user.Dn e r) := by
  intro l
  induction l with
  | nil => intro user; simp [applyMerges]
  | cons e es ih =>
    intro user
    have hstep : applyMerges env user (e :: es)
        = applyMerges env (mergeRolesByAttributes env e.dn user e.filter e.attrName e.uyuniRoles) es := rfl
    obtain ⟨mDn, mMem⟩ := mergeRolesByAttributes_spec env e.dn e.filter e.attrName e.uyuniRoles r user
    obtain ⟨ihDn, ihMem⟩ := ih (mergeRolesByAttributes env e.dn user e.filter e.attrName e.uyuniRoles)
    rw [hstep]
    constructor
    · rw [ihDn, mDn]
    · rw [ihMem, mMem, mDn]
      simp only [List.mem_cons, grantsRole]
      constructor
      · rintro ((h | ⟨h1, h2⟩) | ⟨e', he', hg⟩)
        · exact Or.inl h
        · exact Or.inr ⟨e, Or.inl rfl, h1, h2⟩
        · exact Or.inr ⟨e', Or.inr he', hg⟩
      · rintro (h | ⟨e', (rfl | he'), hg⟩)
        · exact Or.inl (Or.inl h)
        · exact Or.inl (Or.inr hg)
        · exact Or.inr ⟨e', he', hg⟩

theorem applyMerges_nodup (env : Env) :
    ∀ (l : List MergeEntry) (user : UyuniUser), user.roles.Nodup →
      (applyMerges env user l).roles.Nodup := by
  intro l
  induction l with
  | nil => intro user h; exact h
  | cons e es ih =>
    intro user h
    exact ih _ (mergeRolesByAttributes_nodup env e.dn user e.filter e.attrName e.uyuniRoles h)

theorem updateLDAPUserRoles_eq_applyMerges (env : Env) (user : UyuniUser) :
    updateLDAPUserRoles env user = applyMerges env user (flattenedRoleConfigs env) := by
  unfold updateLDAPUserRoles applyMerges flattenedRoleConfigs
  rw [List.foldl_append, List.foldl_map, List.foldl_map]

/-- Claim C6: role resolution is a commutative and idempotent union over the
configured role-source and group-source mapping entries: evaluating the
mapping entries in any order yields the same role set as the engine's
`updateLDAPUserRoles`, and every resulting role appears exactly once. -/
theorem role_union_commutative_idempotent (env : Env) (user : UyuniUser)
    (l : List MergeEntry) (hperm : l.Perm (flattenedRoleConfigs env))
    (hnd : user.roles.Nodup) :
    sameRoleSet (applyMerges env user l).roles (updateLDAPUserRoles env user).roles = true ∧
      ((updateLDAPUserRoles env user).roles.all
        (fun r => (updateLDAPUserRoles env user).roles.countP (fun s => s == r) == 1)) = true := by
  have hmem : ∀ r, r ∈ (applyMerges env user l).roles
      ↔ r ∈ (updateLDAPUserRoles env user).roles := by
    intro r
    rw [updateLDAPUserRoles_eq_applyMerges]
    rw [(applyMerges_spec env r l user).2,
      (applyMerges_spec env r (flattenedRoleConfigs env) user).2]
    constructor
    · rintro (h | ⟨e, he, hg⟩)
      · exact Or.inl h
      · exact Or.inr ⟨e, hperm.mem_iff.mp he, hg⟩
    · rintro (h | ⟨e, he, hg⟩)
      · exact Or.inl h
      · exact Or.inr ⟨e, hperm.mem_iff.mpr he, hg⟩
  have hndU : (updateLDAPUserRoles env user).roles.Nodup := by
    rw [updateLDAPUserRoles_eq_applyMerges]
    exact applyMerges_nodup env (flattenedRoleConfigs env) user hnd
  constructor
  · unfold sameRoleSet
    rw [Bool.and_eq_true, List.all_eq_true, List.all_eq_true]
    constructor
    · intro r hr
      simp only [List.contains, List.elem_eq_mem, decide_eq_true_eq]
      exact (hmem r).mp hr
    · intro r hr
      simp only [List.contains, List.elem_eq_mem, decide_eq_true_eq]
      exact (hmem r).mpr hr
  · rw [List.all_eq_true]
    intro r hr
    rw [countP_beq_of_nodup hndU hr]
    rfl

/-! ### Attribute resolution and user construction -/

/-- Claim C7 (amended): attribute-name resolution inside `newUserFromDN` is
scoped by the configured all-users base DN — for any queried DN, the `uid`
and `mail` attributes are read under the names the spec's `resolve` yields
for `baseDN := allusers`, regardless of the DN actually being queried; the
resolution itself has no error path. -/
theorem attr_resolution_scoped_by_allusers (env : Env) (dn : String) (entry : Entry)
    (h : env.search dn "(objectClass=*)" = [entry]) :
    (newUserFromDN env dn).Uid
      = entry.getAttributeValue (specResolve env.attrmap env.allusers "uid") ∧
    (newUserFromDN env dn).Email
      = entry.getAttributeValue (specResolve env.attrmap env.allusers "mail") := by
  simp only [newUserFromDN, h]
  split
  · exact ⟨rfl, rfl⟩
  · exact ⟨rfl, rfl⟩

/-- Claim C7 counterexample: resolution is not scoped by the base DN being
queried.  Querying `cn=carol,ou=Q,dc=x` — whose AttributeMap entry remaps
`uid` to `employeeId` — still reads the canonical `uid` attribute (value
`carol`), not the override the spec's base-DN-scoped `resolve` names (whose
value is `emp42`). -/
theorem attr_resolution_counterexample :
    envC.search "cn=carol,ou=Q,dc=x" "(objectClass=*)" = [entryC] ∧
    specResolve envC.attrmap "cn=carol,ou=Q,dc=x" "uid" = "employeeId" ∧
    entryC.getAttributeValue "employeeId" = "emp42" ∧
    (newUserFromDN envC "cn=carol,ou=Q,dc=x").Uid = "carol" ∧
    ("carol" : String) ≠ "emp42" := by
  exact ⟨rfl, rfl, rfl, rfl, by decide⟩

/-- Claim C8 counterexample: when the subtree search returns zero entries,
the returned placeholder user does not have `distinguishedName` set — every
field, the DN included, is empty, so the claim's "only `distinguishedName`
set" is false. -/
theorem placeholder_user_counterexample :
    (newUserFromDN envZ "cn=zoe,dc=x").Dn ≠ "cn=zoe,dc=x" ∧
    newUserFromDN envZ "cn=zoe,dc=x" = NewUyuniUser ∧
    envZ.search "cn=zoe,dc=x" "(objectClass=*)" = [] := by
  refine ⟨?_, rfl, rfl⟩
  show ("" : String) ≠ "cn=zoe,dc=x"
  decide

/-- Claim C8 (amended): when the whole-subtree search returns zero entries or
more than one entry, `newUserFromDN` logs an error and returns the fresh
all-empty user (the `distinguishedName` is not set either); the condition is
non-fatal, and every user kept in the staged set has a non-empty uid, so such
placeholders are skipped downstream. -/
theorem ambiguous_dn_yields_empty_user (env : Env) (dn : String)
    (h : (env.search dn "(objectClass=*)").length ≠ 1) :
    newUserFromDN env dn = NewUyuniUser ∧
    ((refreshStagedLDAPUsers env).all (fun u => u.Uid != "")) = true := by
  constructor
  · unfold newUserFromDN
    rcases hs : env.search dn "(objectClass=*)" with _ | ⟨e, _ | ⟨e2, rest⟩⟩
    · rfl
    · have h1 : (env.search dn "(objectClass=*)").length = 1 := by rw [hs]; rfl
      exact absurd h1 h
    · rfl
  · rw [List.all_eq_true]
    intro u hu
    have := (refreshStagedLDAPUsers_prop env u hu).1
    simpa using this

/-- Claim C9: for an entry matched exactly once, the given and family name
are derived by splitting the `cn` value on a single space — a two-token
split is taken directly, anything else falls back to the first non-empty of
the mapped `name` and `givenName` attributes for the given name and to the
mapped `sn` attribute for the family name. -/
theorem cn_split_name_resolution (env : Env) (dn : String) (entry : Entry)
    (h : env.search dn "(objectClass=*)" = [entry]) :
    ((goSplitSpace (entry.getAttributeValue "cn")).length = 2 →
      (newUserFromDN env dn).Name = (goSplitSpace (entry.getAttributeValue "cn")).headD "" ∧
      (newUserFromDN env dn).Secondname
        = ((goSplitSpace (entry.getAttributeValue "cn")).drop 1).headD "") ∧
    ((goSplitSpace (entry.getAttributeValue "cn")).length ≠ 2 →
      (newUserFromDN env dn).Name = getAttributes entry
          [getAttributeNameFor env "name", getAttributeNameFor env "givenName"] ∧
      (newUserFromDN env dn).Secondname
        = entry.getAttributeValue (getAttributeNameFor env "sn")) := by
  rcases hcn : goSplitSpace (entry.getAttributeValue "cn") with _ | ⟨a, _ | ⟨b, _ | ⟨c, rest⟩⟩⟩
  · constructor
    · intro h2; simp at h2
    · intro _
      refine ⟨?_, ?_⟩ <;> simp [newUserFromDN, h, hcn]
  · constructor
    · intro h2; simp at h2
    · intro _
      refine ⟨?_, ?_⟩ <;> simp [newUserFromDN, h, hcn]
  · constructor
    · intro _
      refine ⟨?_, ?_⟩ <;> simp [newUserFromDN, h, hcn]
    · intro hne
      simp at hne
  · constructor
    · intro h2; simp [hcn] at h2
    · intro _
      refine ⟨?_, ?_⟩ <;> simp [newUserFromDN, h, hcn]

/-! ### Concrete witnesses -/

/-- Witness for the lockout-guard claim at `envA`, where every role lookup
fails. -/
theorem lockout_guard_aborts_run_witness :
    (envA.frozen.all (fun uid => guardMiss envA uid) = true) ∧
    (runSync envA = (verifyIgnoredUsers envA envA.frozen).2 ∧
      (runSync envA).filter isWrite = []) :=
  ⟨rfl, lockout_guard_aborts_run envA rfl⟩

/-- Witness for the frozen-UID claim at `envW` and the frozen
`administrator`. -/
theorem frozen_never_written_witness :
    (envW.frozen.contains "administrator" = true) ∧
    writesTargeting (runSync envW) "administrator" = [] :=
  ⟨rfl, frozen_never_written envW "administrator" rfl⟩

/-- Witness for the new-user claim at `envW`: `alice` is staged, absent from
the destination, marked new, and created exactly once. -/
theorem new_user_marked_and_created_once_witness :
    (((refreshUyuniUsersStatus (refreshStagedLDAPUsers envW) uy0W).1.filter
        (fun u => u.Uid == "alice")).map (fun u => u.new) = [true]) ∧
      countCreates (runSync envW) "alice" = 1 :=
  new_user_marked_and_created_once envW "alice" uy0W t1W rfl rfl
    (by decide) (by decide) rfl

/-- Witness for the outdated-user claim at the concrete pair `u4` / `d4`,
which differ only in role set. -/
theorem outdated_marked_and_roles_replaced_witness :
    (refreshStatusStep [u4] [] d4).2.2.outdated = true ∧
      (pushUserRolesToUyuni env4 dst4 d4).1 d4.Uid = d4.roles ∧
      (pushUserRolesToUyuni env4 dst4 d4).2 =
        Call.listRoles d4.Uid ::
          ((dst4 d4.Uid).map (fun r => Call.removeRoleCall d4.Uid r) ++
            d4.roles.map (fun r => Call.addRoleCall d4.Uid r)) :=
  outdated_marked_and_roles_replaced [u4] [] d4 u4 env4 dst4
    rfl rfl rfl rfl rfl (by decide) rfl rfl rfl

/-- Witness for the deleted-user claim at `envD`: `bob` is in the full
directory set and the destination but not staged, so he is classified
deleted and deleted exactly once. -/
theorem deleted_user_classified_and_deleted_once_witness :
    uidIn "bob" (GetDeletedUsers (refreshAllLDAPUsers envD)
        (refreshUyuniUsersStatus (refreshStagedLDAPUsers envD) uy0D).1
        (refreshUyuniUsersStatus (refreshStagedLDAPUsers envD) uy0D).2) = true ∧
      countDeletes (runSync envD) "bob" = 1 :=
  deleted_user_classified_and_deleted_once envD "bob" uy0D t1D bobUser
    rfl rfl (by decide) (by decide) rfl rfl rfl

/-- Witness for the role-union claim at `envG`: evaluating the mapping
entries in reverse order yields the same role set, with each role exactly
once. -/
theorem role_union_commutative_idempotent_witness :
    sameRoleSet (applyMerges envG userG (flattenedRoleConfigs envG).reverse).roles
        (updateLDAPUserRoles envG userG).roles = true ∧
      ((updateLDAPUserRoles envG userG).roles.all
        (fun r => (updateLDAPUserRoles envG userG).roles.countP
          (fun s => s == r) == 1)) = true :=
  role_union_commutative_idempotent envG userG (flattenedRoleConfigs envG).reverse
    (List.reverse_perm _) (by decide)

/-- Witness for the amended attribute-resolution claim at `envC`. -/
theorem attr_resolution_scoped_by_allusers_witness :
    (newUserFromDN envC "cn=carol,ou=Q,dc=x").Uid
      = entryC.getAttributeValue (specResolve envC.attrmap envC.allusers "uid") ∧
    (newUserFromDN envC "cn=carol,ou=Q,dc=x").Email
      = entryC.getAttributeValue (specResolve envC.attrmap envC.allusers "mail") :=
  attr_resolution_scoped_by_allusers envC "cn=carol,ou=Q,dc=x" entryC rfl

/-- Witness for the amended placeholder-user claim at `envZ`. -/
theorem ambiguous_dn_yields_empty_user_witness :
    newUserFromDN envZ "cn=zoe,dc=x" = NewUyuniUser ∧
    ((refreshStagedLDAPUsers envZ).all (fun u => u.Uid != "")) = true :=
  ambiguous_dn_yields_empty_user envZ "cn=zoe,dc=x" (by decide)

/-- Witness for the name-resolution claim at `envW`'s `alice` entry. -/
theorem cn_split_name_resolution_witness :
    ((goSplitSpace (aliceEntry.getAttributeValue "cn")).length = 2 →
      (newUserFromDN envW "cn=alice,ou=U,dc=x").Name
        = (goSplitSpace (aliceEntry.getAttributeValue "cn")).headD "" ∧
      (newUserFromDN envW "cn=alice,ou=U,dc=x").Secondname
        = ((goSplitSpace (aliceEntry.getAttributeValue "cn")).drop 1).headD "") ∧
    ((goSplitSpace (aliceEntry.getAttributeValue "cn")).length ≠ 2 →
      (newUserFromDN envW "cn=alice,ou=U,dc=x").Name = getAttributes aliceEntry
          [getAttributeNameFor envW "name", getAttributeNameFor envW "givenName"] ∧
      (newUserFromDN envW "cn=alice,ou=U,dc=x").Secondname
        = aliceEntry.getAttributeValue (getAttributeNameFor envW "sn")) :=
  cn_split_name_resolution envW "cn=alice,ou=U,dc=x" aliceEntry rfl

/-- Witness for the unreachable-error-branch claim at the concrete pair
`u4` / `d4`. -/
theorem sameAsIn_reachable_for_non_new_witness :
    (sameAsIn { d4 with new := false } [u4]).isSome = true ∧
      (refreshStatusStep [u4] [] d4).2.2.outdated
        = !(((sameAsIn { d4 with new := false } [u4]).getD (true, d4)).1) :=
  sameAsIn_reachable_for_non_new [u4] [] d4 rfl

end UyuniLdapSync
